import Mathlib

/-!
Shallow embedding of the geoconvert-rs coordinate library (MGRS / UTM / UPS),
translated from the Rust sources:

  * src/utility.rs            -- scalar math kernel (angle normalization, tauf, ...)
  * src/coords/utm.rs         -- UtmUps type, standard_zone, check_coords
  * src/coords/mgrs.rs        -- Mgrs type, FromStr parser, Display formatter
  * src/projections/*.rs      -- Transverse Mercator / Polar Stereographic inverse
  * src/constants.rs          -- WGS84 constants

Modelling conventions:

  * f64 values are idealized as exact rationals (ℚ) in the integer-and-branch
    heavy code (zone selection, MGRS tokenization, coordinate windows), and as
    real numbers (ℝ) in the transcendental projection kernel.  `f64::EPSILON`
    is `2^-52` exactly.
  * Rust `i32` arithmetic that can overflow (the digit accumulators of the
    MGRS parser) is modelled with explicit wrapping at `2^32` (`wrap32`),
    matching the two's-complement wrap-around semantics of release builds.
    Integer arithmetic whose operands are provably tiny is modelled on ℤ.
  * Rust `/` and `%` on integers truncate towards zero: `rustDiv`/`rustMod`.
  * `f64::round` rounds half away from zero: `rustRound`.
  * A Rust panic (out-of-bounds index, failed assert!, unreachable!, .expect)
    is modelled as `Option.none`; every fallible byte access goes through
    `List.getElem?`.
  * Errors carry the structured content of the Rust error message (offending
    value, legal window, offending character) instead of a formatted string.
-/

-- Core marks the ℚ field operations irreducible for elaboration performance;
-- restore the default transparency so that concrete rational computations in
-- this development can be evaluated by `decide`.
set_option allowUnsafeReducibility true
attribute [local semireducible] Rat.add Rat.mul Rat.inv Rat.sub Rat.div Rat.ofScientific

/-! ## Rust integer / float primitives -/

/-- Rust `i32`/`i64` division truncates towards zero. -/
def rustDiv (a b : ℤ) : ℤ := Int.tdiv a b

/-- Rust `i32`/`i64` remainder truncates towards zero. -/
def rustMod (a b : ℤ) : ℤ := Int.tmod a b

/-- Two's-complement wrap-around of an unbounded integer into `i32`. -/
def wrap32 (n : ℤ) : ℤ := (n + 2 ^ 31) % 2 ^ 32 - 2 ^ 31

/-- `f64::floor` followed by a cast to integer, on the exact-rational model.
(`q.num / q.den` is integer floor division since `q.den > 0`.) -/
def qfloor (q : ℚ) : ℤ := q.num / q.den

/-- `f64::round`: round half away from zero. -/
def rustRound (q : ℚ) : ℤ := if 0 ≤ q then qfloor (q + 1/2) else -qfloor (-q + 1/2)

/-- `f64::EPSILON` = 2^-52. -/
def f64Eps : ℚ := 1 / 2 ^ 52

/-! ## utility.rs : GeoMath on the exact-rational model -/

/-- `GeoMath::is_zero` (utility.rs:100): `self.abs() < f64::EPSILON`. -/
abbrev GeoMath.isZero (x : ℚ) : Prop := |x| < f64Eps

/-- `GeoMath::eps_eq` (utility.rs:104): `(self - other).abs() < f64::EPSILON`. -/
abbrev GeoMath.epsEq (x y : ℚ) : Prop := |x - y| < f64Eps

/-- `GeoMath::remainder` (utility.rs:150): `self - (self / denom).round() * denom`. -/
def GeoMath.remainder (x denom : ℚ) : ℚ := x - (rustRound (x / denom) : ℚ) * denom

/-- `GeoMath::ang_normalize` (utility.rs:108): reduce to `[-180, 180]` with the
boundary value signed like the input (`copysign` on the 180 boundary). -/
def GeoMath.angNormalize (x : ℚ) : ℚ :=
  if GeoMath.epsEq |GeoMath.remainder x 360| 180 then (if x < 0 then -180 else 180)
  else GeoMath.remainder x 360

/-! ## Error model (lib.rs `Error` and the `format!` sites feeding it) -/

/-- Structured content of the `Error::InvalidMgrs(String)` messages produced by
the MGRS parser (`Mgrs::from_str`, mgrs.rs:414-760) and by the MGRS coordinate
check (mgrs.rs:767-830).  One constructor per `format!` site. -/
inductive MgrsParseErr where
  /-- "String contains unicode characters" -/
  | nonAscii : MgrsParseErr
  /-- "Starts with 'INV'" -/
  | startsWithINV : MgrsParseErr
  /-- "Zone {zone} not in [1,60]" -/
  | zoneRange (zone : ℤ) : MgrsParseErr
  /-- "More than 2 digits at start of MGRS" -/
  | zoneDigits : MgrsParseErr
  /-- "Too short" -/
  | tooShort : MgrsParseErr
  /-- "Band letter {c} not in UTM/UPS set" -/
  | badBandLetter (c : Char) : MgrsParseErr
  /-- "Missing row letter" -/
  | missingRowLetter : MgrsParseErr
  /-- "Column letter {c} not in zone/band set" -/
  | badColLetter (c : Char) : MgrsParseErr
  /-- "Row letter {c} not in UTM/UPS set" -/
  | badRowLetter (c : Char) : MgrsParseErr
  /-- "Block {..} not in zone/band {..}" -/
  | badBlock : MgrsParseErr
  /-- "Encountered a non-digit in {..}" -/
  | nonDigit : MgrsParseErr
  /-- "Not an even number of digits in {..}" -/
  | oddDigitCount : MgrsParseErr
  /-- "More than 22 digits in {..}" -/
  | tooManyDigits : MgrsParseErr
  /-- "Easting {v}km not in MGRS/.. range for .. hemisphere [{lo}km, {hi}km]" -/
  | eastingRange (valKm loKm hiKm : ℚ) : MgrsParseErr
  /-- "Northing {v}km not in MGRS/.. range for .. hemisphere [{lo}km, {hi}km]" -/
  | northingRange (valKm loKm hiKm : ℚ) : MgrsParseErr
deriving DecidableEq, Repr

/-- Which coordinate a `check_coords` (utm.rs:340) failure message names. -/
inductive CoordAxis where
  | easting : CoordAxis
  | northing : CoordAxis
deriving DecidableEq, Repr

/-- lib.rs `Error` (the variants exercised by the embedded core).
`invalidUtmCoords` carries the structured content of the utm.rs:340
`check_coords` message: the MGRS-limits label, zone kind, hemisphere, the
offending axis, the offending value in km and the legal window in km. -/
inductive Error where
  | invalidPrecision (p : ℤ) : Error
  | invalidZone (z : ℤ) : Error
  | invalidMgrs (e : MgrsParseErr) : Error
  | invalidUtmCoords (mgrsLimits utmp northp : Bool) (axis : CoordAxis)
      (valKm loKm hiKm : ℚ) : Error
deriving DecidableEq, Repr

deriving instance DecidableEq for Except

/-! ## Data model -/

/-- `UtmUps` (utm.rs:68): a projected UTM (zone 1..60) or UPS (zone 0) point. -/
structure UtmUps where
  zone : ℤ
  northp : Bool
  easting : ℚ
  northing : ℚ
deriving DecidableEq, Repr

/-- `Mgrs` (mgrs.rs:71): a `UtmUps` point plus a formatting precision. -/
structure Mgrs where
  utm : UtmUps
  precision : ℤ
deriving DecidableEq, Repr

/-! ## mgrs.rs constants (lines 8-64) -/

def TILE : ℤ := 100000
def MINUTMCOL : ℤ := 1
def MAXUTMCOL : ℤ := 9
def MINUTM_S_ROW : ℤ := 10
def MAXUTM_S_ROW : ℤ := 100
def MINUTM_N_ROW : ℤ := 0
def MAXUTM_N_ROW : ℤ := 95
def MINUPS_S_IND : ℤ := 8
def MAXUPS_S_IND : ℤ := 32
def MINUPS_N_IND : ℤ := 13
def MAXUPS_N_IND : ℤ := 27
def UPSEASTING : ℤ := 20
def UTMEASTING : ℤ := 5
def UTM_N_SHIFT : ℤ := (MAXUTM_S_ROW - MINUTM_N_ROW) * TILE
def BASE : ℤ := 10
def UTM_ROW_PERIOD : ℤ := 20
def UTM_EVEN_ROW_SHIFT : ℤ := 5
def MAX_PRECISION : ℤ := 5 + 6
def MULT : ℤ := 1000000

/-- mgrs.rs `MIN_EASTING`, indexed by `ind = 2*utmp + northp` (tile units). -/
def minEastingM : ℕ → ℤ
  | 0 => MINUPS_S_IND | 1 => MINUPS_N_IND | 2 => MINUTMCOL | _ => MINUTMCOL

/-- mgrs.rs `MAX_EASTING` (tile units). -/
def maxEastingM : ℕ → ℤ
  | 0 => MAXUPS_S_IND | 1 => MAXUPS_N_IND | 2 => MAXUTMCOL | _ => MAXUTMCOL

/-- mgrs.rs `MIN_NORTHING` (tile units). -/
def minNorthingM : ℕ → ℤ
  | 0 => MINUPS_S_IND | 1 => MINUPS_N_IND | 2 => MINUTM_S_ROW
  | _ => MINUTM_S_ROW - MAXUTM_S_ROW - MINUTM_N_ROW

/-- mgrs.rs `MAX_NORTHING` (tile units). -/
def maxNorthingM : ℕ → ℤ
  | 0 => MAXUPS_S_IND | 1 => MAXUPS_N_IND
  | 2 => MAXUTM_N_ROW + MAXUTM_S_ROW - MINUTM_N_ROW | _ => MAXUTM_N_ROW

/-- utm.rs:3 `zonespec` constants. -/
def zonespecSTANDARD : ℤ := -1
def zonespecUPS : ℤ := 0
def zonespecMINZONE : ℤ := 0
def zonespecMAXZONE : ℤ := 60

/-! ## to_latitude_band and utm_row (mgrs.rs:762, mgrs.rs:342) -/

/-- `to_latitude_band` (mgrs.rs:762): clamp((⌊lat⌋+80)/8 - 10, -10, 9), with
Rust truncating division. -/
def toLatitudeBand (lat : ℚ) : ℤ :=
  let latInt := qfloor lat
  max (-10) (min 9 (rustDiv (latInt + 80) 8 - 10))

/-- `utm_row` (mgrs.rs:342): resolve the 20-row periodic ambiguity of a UTM
100km-row letter against the latitude band, special-casing the four blocks
that straddle band seams; `MAXUTM_S_ROW` (100) signals "not in this band". -/
def utmRow (bandIdx colIdx rowIdx : ℤ) : ℤ :=
  let c : ℚ := 100 * (8 * (bandIdx : ℚ) + 4) / 90
  let northp : Bool := decide (0 ≤ bandIdx)
  let minRow : ℤ :=
    if -10 < bandIdx then qfloor (c - 43/10 - 1/10 * (if northp then 1 else 0)) else -90
  let maxRow : ℤ :=
    if bandIdx < 9 then qfloor (c + 44/10 - 1/10 * (if northp then 1 else 0)) else 94
  let baseRow := rustDiv (minRow + maxRow) 2 - rustDiv UTM_ROW_PERIOD 2
  let rowIdx2 := rustMod (rowIdx - baseRow + MAXUTM_S_ROW) UTM_ROW_PERIOD + baseRow
  if ¬(minRow ≤ rowIdx2 ∧ rowIdx2 ≤ maxRow) then
    -- outside the safe bounds: only four named boundary blocks are legal
    let safeBand := if 0 ≤ bandIdx then bandIdx else -bandIdx - 1
    let safeRow := if 0 ≤ rowIdx2 then rowIdx2 else -rowIdx2 - 1
    let safeCol := if colIdx < 4 then colIdx else -colIdx + 7
    if ¬((safeRow = 70 ∧ safeBand = 8 ∧ 2 ≤ safeCol) ∨
         (safeRow = 71 ∧ safeBand = 7 ∧ safeCol ≤ 2) ∨
         (safeRow = 79 ∧ safeBand = 9 ∧ 1 ≤ safeCol) ∨
         (safeRow = 80 ∧ safeBand = 8 ∧ safeCol ≤ 1)) then
      MAXUTM_S_ROW
    else rowIdx2
  else rowIdx2

/-! ## MGRS letter tables (mgrs.rs:8-15), as the byte arithmetic of the parser.

The parser (mgrs.rs:414-760) does not search the table strings; it computes
indices by byte comparisons and conditional decrements.  Character codes:
A=65 B=66 C=67 ... H=72 I=73 J=74 K=75 L=76 M=77 N=78 O=79 P=80 Q=81 R=82
S=83 T=84 U=85 V=86 W=87 X=88 Y=89 Z=90, digits 0..9 = 48..57, a=97 z=122. -/

/-- `u8::is_ascii_digit`. -/
abbrev isDigitByte (c : Char) : Prop := 48 ≤ c.toNat ∧ c.toNat ≤ 57

/-- Value of an ASCII digit: `chars[p] - b'0'`. -/
def digitVal1 (c : Char) : ℤ := (c.toNat : ℤ) - 48

/-- `str::to_ascii_uppercase`, per character. -/
def asciiUpper (c : Char) : Char :=
  if 97 ≤ c.toNat ∧ c.toNat ≤ 122 then Char.ofNat (c.toNat - 32) else c

/-- Latitude-band letter to index (mgrs.rs:459-485).  UTM: `C..X` minus `I,O`
(index 0..19); UPS: `A,B,Y,Z` (index 0..3); `-1` = invalid. -/
def bandIndex (utmp : Bool) (c : Char) : ℤ :=
  let n := c.toNat
  if utmp then
    if 67 ≤ n ∧ n ≤ 88 ∧ n ≠ 73 ∧ n ≠ 79 then
      ((n : ℤ) - 67) - (if 72 < n then 1 else 0) - (if 78 < n then 1 else 0)
    else -1
  else
    if n = 65 then 0 else if n = 66 then 1 else if n = 89 then 2 else if n = 90 then 3
    else -1

/-- UTM column letter to index (mgrs.rs:526-553), keyed by `(zone-1) % 3`;
`none` models the `unreachable!()` arm. -/
def utmColIndex (zonem3 : ℤ) (c : Char) : Option ℤ :=
  let n := c.toNat
  if zonem3 = 0 then
    -- "ABCDEFGH"
    some (if 65 ≤ n ∧ n ≤ 72 then (n : ℤ) - 65 else -1)
  else if zonem3 = 1 then
    -- "JKLMNPQR" minus O
    some (if 74 ≤ n ∧ n ≤ 82 ∧ n ≠ 79 then
      (if n < 79 then (n : ℤ) - 74 else (n : ℤ) - 74 - 1) else -1)
  else if zonem3 = 2 then
    -- "STUVWXYZ"
    some (if 83 ≤ n ∧ n ≤ 90 then (n : ℤ) - 83 else -1)
  else none

/-- UPS column letter to index (mgrs.rs:556-611), keyed by the UPS band;
`none` models the `unreachable!()` arm. -/
def upsColIndex (bandIdx : ℤ) (c : Char) : Option ℤ :=
  let n := c.toNat
  if bandIdx = 0 then
    -- "JKLPQRSTUXYZ": J..=Z minus M,N,O minus V,W
    some (if 74 ≤ n ∧ n ≤ 90 ∧ ¬(77 ≤ n ∧ n ≤ 79) ∧ n ≠ 86 ∧ n ≠ 87 then
      ((n : ℤ) - 74) - (if 76 < n then 3 else 0) - (if 85 < n then 2 else 0)
    else -1)
  else if bandIdx = 1 then
    -- "ABCFGHJKLPQR": A..=R minus D,E,I minus M,N,O
    some (if 65 ≤ n ∧ n ≤ 82 ∧ n ≠ 68 ∧ n ≠ 69 ∧ n ≠ 73 ∧ ¬(77 ≤ n ∧ n ≤ 79) then
      ((n : ℤ) - 65) - (if 67 < n then 2 else 0) - (if 72 < n then 1 else 0) -
        (if 76 < n then 3 else 0)
    else -1)
  else if bandIdx = 2 then
    -- "RSTUXYZ": R..=Z minus V,W
    some (if 82 ≤ n ∧ n ≤ 90 ∧ n ≠ 86 ∧ n ≠ 87 then
      ((n : ℤ) - 82) - (if 85 < n then 2 else 0)
    else -1)
  else if bandIdx = 3 then
    -- "ABCFGHJ": A..=J minus D,E,I
    some (if 65 ≤ n ∧ n ≤ 74 ∧ n ≠ 68 ∧ n ≠ 69 ∧ n ≠ 73 then
      ((n : ℤ) - 65) - (if 67 < n then 2 else 0) - (if 72 < n then 1 else 0)
    else -1)
  else none

/-- 100km-row letter to index (mgrs.rs:625-670).  UTM: `A..V` minus `I,O`;
UPS north: `A..P` minus `I,O`; UPS south: `A..Z` minus `I,O`; `-1` = invalid. -/
def rowIndexRaw (utmp northp : Bool) (c : Char) : ℤ :=
  let n := c.toNat
  let hi : ℕ := if utmp then 86 else if northp then 80 else 90
  if 65 ≤ n ∧ n ≤ hi ∧ n ≠ 73 ∧ n ≠ 79 then
    ((n : ℤ) - 65) - (if 72 < n then 1 else 0) - (if 78 < n then 1 else 0)
  else -1

/-! ## The MGRS parser (mgrs.rs:414-760, `impl FromStr for Mgrs`) -/

/-- The leading-digit zone scan (mgrs.rs:432-440): consume ASCII digits from
position `p`, accumulating `zone = 10*zone + digit` in wrapping `i32`.  The
source loop runs while `p < len`; here `fuel` counts the remaining positions
(callers pass `cs.length`, which dominates the loop count, so the fuel never
runs out before the source loop exits). -/
def scanZone (cs : List Char) (fuel p : ℕ) (zone : ℤ) : ℕ × ℤ :=
  match fuel with
  | 0 => (p, zone)
  | fuel + 1 =>
    match cs[p]? with
    | some c =>
      if isDigitByte c then scanZone cs fuel (p + 1) (wrap32 (10 * zone + digitVal1 c))
      else (p, zone)
    | none => (p, zone)

/-- The trailing digit-pair loop (mgrs.rs:708-726): `n` iterations remaining,
reading easting digits at `i` and northing digits at `i + k`, accumulating
`unit`, `x`, `y` in wrapping `i32`. -/
def readDigits (cs : List Char) (k : ℕ) :
    ℕ → ℕ → ℤ → ℤ → ℤ → Option (Except MgrsParseErr (ℤ × ℤ × ℤ))
  | 0, _, unit, x, y => some (.ok (unit, x, y))
  | n + 1, i, unit, x, y =>
    let unit2 := wrap32 (BASE * unit)
    match cs[i]? with
    | none => none
    | some xc =>
      if isDigitByte xc then
        match cs[i + k]? with
        | none => none
        | some yc =>
          if isDigitByte yc then
            readDigits cs k n (i + 1) unit2
              (wrap32 (BASE * x + digitVal1 xc)) (wrap32 (BASE * y + digitVal1 yc))
          else some (.error .nonDigit)
      else some (.error .nonDigit)

/-- The mathematical value of a digit string, most significant digit first
(used to state what the digit-pair loop computes). -/
def digitsVal : List Char → ℤ
  | [] => 0
  | c :: ds => digitVal1 c * 10 ^ ds.length + digitsVal ds

/-- The digit-accumulation of `readDigits` on one digit list, as a standalone
fold (`x = wrap32(BASE * x + digit)` per character). -/
def wfoldDigits (x : ℤ) : List Char → ℤ
  | [] => x
  | c :: ds => wfoldDigits (wrap32 (BASE * x + digitVal1 c)) ds

/-- The `unit`-accumulation of `readDigits`: `n` wrapping multiplications by
`BASE`. -/
def wpow : ℕ → ℤ → ℤ
  | 0, u => u
  | n + 1, u => wpow n (wrap32 (BASE * u))

/-- The grid-zone-only result (mgrs.rs:497-518): the central tile of the
zone/band at sentinel precision `-1`. -/
def gridZoneOnly (zone : ℤ) (utmp northp : Bool) (bandIdx : ℤ) : Mgrs :=
  -- deg = UTM_N_SHIFT / (QD * TILE), the approximate tiles per degree of arc
  let deg : ℚ := (UTM_N_SHIFT : ℚ) / ((90 * TILE : ℤ) : ℚ)
  if utmp then
    let x : ℚ := (TILE : ℚ) * (if zone = 31 ∧ bandIdx = 17 then 4 else 5)
    let yAdd : ℚ := if northp then 0 else (UTM_N_SHIFT : ℚ)
    let y : ℚ := (qfloor (8 * ((bandIdx : ℚ) - 19/2) * deg + 1/2) : ℚ) * (TILE : ℚ) + yAdd
    ⟨⟨zone, northp, x, y⟩, -1⟩
  else
    let xCond : ℚ := if rustMod bandIdx 2 = 1 then 1 else -1
    let x : ℚ := (xCond * (qfloor (4 * deg + 1/2) : ℚ) + (UPSEASTING : ℚ)) * (TILE : ℚ)
    let y : ℚ := ((UPSEASTING * TILE : ℤ) : ℚ)
    ⟨⟨zone, northp, x, y⟩, -1⟩

/-- Post-loop tail of the digit phase (mgrs.rs:728-758): reject odd digit
counts and more than 22 digits, then return the tile-center ("centerp")
coordinate built from the loop accumulators. -/
def finishTail (value : List Char) (len p3 : ℕ) (zone : ℤ) (northp : Bool)
    (unit x y : ℤ) : Option (Except MgrsParseErr Mgrs) :=
  let k := (len - p3) / 2
  if (len - p3) % 2 = 1 then
    match value[len - 1]? with
    | none => none
    | some clast =>
      if ¬isDigitByte clast then some (.error .nonDigit)
      else some (.error .oddDigitCount)
  else if MAX_PRECISION < (k : ℤ) then some (.error .tooManyDigits)
  else
    -- centerp == true: move to the center of the precision tile
    let unit2 := wrap32 (2 * unit)
    let x2 := wrap32 (2 * x + 1)
    let y2 := wrap32 (2 * y + 1)
    some (.ok ⟨⟨zone, northp,
      (TILE : ℚ) * (x2 : ℚ) / (unit2 : ℚ),
      (TILE : ℚ) * (y2 : ℚ) / (unit2 : ℚ)⟩, (k : ℤ)⟩)

/-- The digit phase of the parser (mgrs.rs:703-758): read `(len-p3)/2` digit
pairs starting at `p3`, then finish via `finishTail`. -/
def finishDigits (value : List Char) (len p3 : ℕ) (zone : ℤ) (northp : Bool)
    (x0 y0 : ℤ) : Option (Except MgrsParseErr Mgrs) :=
  let k := (len - p3) / 2
  match readDigits value k k p3 1 x0 y0 with
  | none => none
  | some (.error e) => some (.error e)
  | some (.ok (unit, x, y)) => finishTail value len p3 zone northp unit x y

/-- `Mgrs::from_str` (mgrs.rs:418-759) on the uppercased character list. -/
def fromStrCore (cs0 : List Char) : Option (Except MgrsParseErr Mgrs) :=
  let value := cs0.map asciiUpper
  let len := value.length
  if ¬(value.all fun c => c.toNat ≤ 127) then some (.error .nonAscii)
  else if 3 ≤ len ∧ value.take 3 = ['I', 'N', 'V'] then some (.error .startsWithINV)
  else
    let pz := scanZone value len 0 0
    let p := pz.1
    let zone := pz.2
    if 0 < p ∧ ¬(1 ≤ zone ∧ zone ≤ 60) then some (.error (.zoneRange zone))
    else if 2 < p then some (.error .zoneDigits)
    else if len - p < 1 then some (.error .tooShort)
    else
      let utmp : Bool := decide (zone ≠ zonespecUPS)
      match value[p]? with
      | none => none
      | some c =>
        let bandIdx := bandIndex utmp c
        if bandIdx = -1 then some (.error (.badBandLetter c))
        else
          let p1 := p + 1
          let northp : Bool := decide ((if utmp then (10 : ℤ) else 2) ≤ bandIdx)
          if p1 = len then some (.ok (gridZoneOnly zone utmp northp bandIdx))
          else if len - p1 < 2 then some (.error .missingRowLetter)
          else
            match value[p1]? with
            | none => none
            | some c2 =>
              match (if utmp then utmColIndex (rustMod (zone - 1) 3) c2
                     else upsColIndex bandIdx c2) with
              | none => none
              | some colIdx0 =>
                if colIdx0 = -1 then some (.error (.badColLetter c2))
                else
                  let p2 := p1 + 1
                  match value[p2]? with
                  | none => none
                  | some c3 =>
                    let rowIdx0 := rowIndexRaw utmp northp c3
                    if rowIdx0 = -1 then some (.error (.badRowLetter c3))
                    else
                      let p3 := p2 + 1
                      if utmp then
                        let rowIdx1 :=
                          if rustMod (zone - 1) 2 = 1 then
                            rustMod (rowIdx0 + UTM_ROW_PERIOD - UTM_EVEN_ROW_SHIFT)
                              UTM_ROW_PERIOD
                          else rowIdx0
                        let rowIdx2 := utmRow (bandIdx - 10) colIdx0 rowIdx1
                        if rowIdx2 = MAXUTM_S_ROW then some (.error .badBlock)
                        else
                          finishDigits value len p3 zone northp (colIdx0 + MINUTMCOL)
                            (if northp then rowIdx2 else rowIdx2 + 100)
                      else
                        let eastp := rustMod bandIdx 2 = 1
                        let colIdx1 := colIdx0 +
                          (if eastp then UPSEASTING
                           else if northp then MINUPS_N_IND else MINUPS_S_IND)
                        let rowIdx1 := rowIdx0 +
                          (if northp then MINUPS_N_IND else MINUPS_S_IND)
                        finishDigits value len p3 zone northp colIdx1 rowIdx1

/-- `Mgrs::from_str` / `Mgrs::parse_str` on a Lean string. -/
def Mgrs.fromStr (s : String) : Option (Except MgrsParseErr Mgrs) :=
  fromStrCore s.data

/-! ## mgrs.rs check_coords (lines 767-830) -/

/-- One axis of the mgrs.rs coordinate check: the tile index must lie in
`[lo, hi)`; a value eps-equal to the `hi` boundary is pulled inside by
`ANG_EPS`; `none` = out of range.  (mgrs.rs `ANG_EPS` is
`2^-(f64::DIGITS - 25)` = `2^10` = 1024, since `f64::DIGITS` = 15.) -/
def slopAdjust (lo hi : ℤ) (v : ℚ) (vInt : ℤ) : Option ℚ :=
  if lo ≤ vInt ∧ vInt < hi then some v
  else if vInt = hi ∧ GeoMath.epsEq v ((hi * TILE : ℤ) : ℚ) then some (v - 1024)
  else none

/-- `check_coords` (mgrs.rs:767-830): validate the tile indices of an
easting/northing pair against the per-kind/hemisphere window and normalize a
UTM northing into the stored hemisphere convention. -/
def checkCoordsM (utmp northp : Bool) (x y : ℚ) :
    Except MgrsParseErr (Bool × ℚ × ℚ) :=
  let xInt := qfloor (x / (TILE : ℚ))
  let yInt := qfloor (y / (TILE : ℚ))
  let ind : ℕ := (if utmp then 2 else 0) + (if northp then 1 else 0)
  match slopAdjust (minEastingM ind) (maxEastingM ind) x xInt with
  | none =>
    .error (.eastingRange (x / 1000)
      ((minEastingM ind * rustDiv TILE 1000 : ℤ) : ℚ)
      ((maxEastingM ind * rustDiv TILE 1000 : ℤ) : ℚ))
  | some xNew =>
    match slopAdjust (minNorthingM ind) (maxNorthingM ind) y yInt with
    | none =>
      .error (.northingRange (y / 1000)
        ((minNorthingM ind * rustDiv TILE 1000 : ℤ) : ℚ)
        ((maxNorthingM ind * rustDiv TILE 1000 : ℤ) : ℚ))
    | some yNew =>
      if utmp then
        if northp ∧ yInt < MINUTM_S_ROW then
          .ok (false, xNew, yNew + (UTM_N_SHIFT : ℚ))
        else if ¬northp ∧ MAXUTM_S_ROW ≤ yInt then
          if GeoMath.epsEq y ((MAXUTM_S_ROW * TILE : ℤ) : ℚ) then
            .ok (northp, xNew, yNew - 1024)
          else
            .ok (true, xNew, y - (UTM_N_SHIFT : ℚ))
        else .ok (northp, xNew, yNew)
      else .ok (northp, xNew, yNew)

/-! ## Mgrs construction and precision (mgrs.rs:111-125, 229-236) -/

/-- `Mgrs::create` (mgrs.rs:111-125). -/
def Mgrs.create (zone : ℤ) (northp : Bool) (easting northing : ℚ)
    (precision : ℤ) : Except Error Mgrs :=
  if ¬(zonespecMINZONE ≤ zone ∧ zone ≤ zonespecMAXZONE) then
    .error (.invalidZone zone)
  else
    let utmp : Bool := decide (zone ≠ zonespecUPS)
    match checkCoordsM utmp northp easting northing with
    | .error e => .error (.invalidMgrs e)
    | .ok _ => .ok ⟨⟨zone, northp, easting, northing⟩, precision⟩

/-- `Mgrs::set_precision` (mgrs.rs:229-236), functionalized: returns the
updated value instead of mutating in place. -/
def Mgrs.setPrecision (m : Mgrs) (precision : ℤ) : Except Error Mgrs :=
  if ¬(1 ≤ precision ∧ precision ≤ 11) then .error (.invalidPrecision precision)
  else .ok { m with precision := precision }

/-! ## utm.rs check_coords (lines 340-373) and UtmUps construction -/

/-- `check_coords` (utm.rs:340-373): accept iff both axes lie in the tabulated
meter window widened by one tile (`slop = TILE`) on each side; a violation
reports the offending axis, its value in km and the legal window in km. -/
def checkCoordsU (utmp northp : Bool) (x y : ℚ) (mgrsLimits : Bool) :
    Except Error Unit :=
  let slop : ℚ := (TILE : ℚ)
  let ind : ℕ := (if utmp then 2 else 0) + (if northp then 1 else 0)
  let minE : ℚ := ((minEastingM ind * TILE : ℤ) : ℚ)
  let maxE : ℚ := ((maxEastingM ind * TILE : ℤ) : ℚ)
  let minN : ℚ := ((minNorthingM ind * TILE : ℤ) : ℚ)
  let maxN : ℚ := ((maxNorthingM ind * TILE : ℤ) : ℚ)
  if x < minE - slop ∨ x > maxE + slop then
    .error (.invalidUtmCoords mgrsLimits utmp northp .easting
      (x / 1000) ((minE - slop) / 1000) ((maxE + slop) / 1000))
  else if y < minN - slop ∨ y > maxN + slop then
    .error (.invalidUtmCoords mgrsLimits utmp northp .northing
      (y / 1000) ((minN - slop) / 1000) ((maxN + slop) / 1000))
  else .ok ()

/-- `UtmUps::create` (utm.rs:117-128). -/
def UtmUps.create (zone : ℤ) (northp : Bool) (easting northing : ℚ) :
    Except Error UtmUps :=
  if ¬(zonespecMINZONE ≤ zone ∧ zone ≤ zonespecMAXZONE) then
    .error (.invalidZone zone)
  else
    let utmp : Bool := decide (zone ≠ zonespecUPS)
    match checkCoordsU utmp northp easting northing false with
    | .error e => .error e
    | .ok _ => .ok ⟨zone, northp, easting, northing⟩

/-! ## Zone selection (utm.rs:307-338) -/

/-- `central_meridian` (utm.rs:307). -/
def centralMeridian (zone : ℤ) : ℚ := 6 * (zone : ℚ) - 183

/-- The `lon_int` computation of `standard_zone` (utm.rs:318-321): the floored
normalized longitude, with 180 folded to -180. -/
def lonIntOf (lon : ℚ) : ℤ :=
  if qfloor (GeoMath.angNormalize lon) = 180 then -180
  else qfloor (GeoMath.angNormalize lon)

/-- `standard_zone` (utm.rs:312-338): map latitude/longitude to a UTM zone
number or the UPS sentinel 0, with the Norway and Svalbard exceptions. -/
def standardZone (lat lon : ℚ) (setzone : ℤ) : ℤ :=
  if zonespecMINZONE ≤ setzone ∨ setzone = -4 then setzone
  else if setzone = -2 ∨ (-80 ≤ lat ∧ lat < 84) then
    -- zone = (lon_int + 186) / 6, then the two named exceptions
    if toLatitudeBand lat = 7 ∧ rustDiv (lonIntOf lon + 186) 6 = 31 ∧
        3 ≤ lonIntOf lon then 32
    else if toLatitudeBand lat = 9 ∧ 0 ≤ lonIntOf lon ∧ lonIntOf lon < 42 then
      2 * rustDiv (lonIntOf lon + 183) 12 + 1
    else rustDiv (lonIntOf lon + 186) 6
  else zonespecUPS

/-! ## The trivial Mgrs ↔ UtmUps conversions (mgrs.rs:312-339, utm.rs:276-305) -/

/-- `Mgrs::from_utmups` (mgrs.rs:312-317). -/
def Mgrs.fromUtmUps (value : UtmUps) (precision : ℤ) : Mgrs :=
  ⟨value, precision⟩

/-- `Mgrs::to_utmups` (mgrs.rs:337-339). -/
def Mgrs.toUtmUps (m : Mgrs) : UtmUps := m.utm

/-- `UtmUps::from_mgrs` (utm.rs:276-278). -/
def UtmUps.fromMgrs (value : Mgrs) : UtmUps := value.utm

/-- `UtmUps::to_mgrs` (utm.rs:299-304). -/
def UtmUps.toMgrs (u : UtmUps) (precision : ℤ) : Mgrs :=
  ⟨u, precision⟩

/-! ## Spec-side definitions (written from the spec's words, for refinement
claims that compare the code against the spec's own formula) -/

/-- The zone-selection rule as the specification states it (spec §4.4 /
claim C3): UPS sentinel 0 when `lat < -80` or `lat ≥ 84`; else
`floor((lonInt+186)/6)` with the Norway and Svalbard exceptions, `lonInt`
being the floored normalized integer longitude. -/
def specStandardZone (lat lon : ℚ) : ℤ :=
  if lat < -80 ∨ 84 ≤ lat then 0
  else
    if toLatitudeBand lat = 7 ∧ Int.fdiv (lonIntOf lon + 186) 6 = 31 ∧
        3 ≤ lonIntOf lon then 32
    else if toLatitudeBand lat = 9 ∧ 0 ≤ lonIntOf lon ∧ lonIntOf lon < 42 then
      2 * Int.fdiv (lonIntOf lon + 183) 12 + 1
    else Int.fdiv (lonIntOf lon + 186) 6

/-- The legal easting window of utm.rs `check_coords` in meters, lower end:
the tabulated minimum widened by one tile of slop (spec §4.4). -/
def windowLoE (utmp northp : Bool) : ℚ :=
  ((minEastingM ((if utmp then 2 else 0) + (if northp then 1 else 0)) * TILE : ℤ) : ℚ)
    - (TILE : ℚ)

/-- Upper end of the legal easting window (tabulated maximum plus one tile). -/
def windowHiE (utmp northp : Bool) : ℚ :=
  ((maxEastingM ((if utmp then 2 else 0) + (if northp then 1 else 0)) * TILE : ℤ) : ℚ)
    + (TILE : ℚ)

/-- Lower end of the legal northing window (tabulated minimum minus one tile). -/
def windowLoN (utmp northp : Bool) : ℚ :=
  ((minNorthingM ((if utmp then 2 else 0) + (if northp then 1 else 0)) * TILE : ℤ) : ℚ)
    - (TILE : ℚ)

/-- Upper end of the legal northing window (tabulated maximum plus one tile). -/
def windowHiN (utmp northp : Bool) : ℚ :=
  ((maxNorthingM ((if utmp then 2 else 0) + (if northp then 1 else 0)) * TILE : ℤ) : ℚ)
    + (TILE : ℚ)

/-! ## Real-valued embedding of the projection kernel (utility.rs,
transverse_mercator.rs, polar_stereographic.rs, constants.rs).

The transcendental f64 arithmetic of the projections is idealized over ℝ:
each f64 operation stands for its exact real counterpart.  Comparisons on ℝ
are classically decidable (the conditionals below use the classical
instance). -/

section RealKernel

open scoped Classical

/-- Machine epsilon `f64::EPSILON` over ℝ. -/
noncomputable def f64EpsR : ℝ := 1 / 2 ^ 52

/-- Rust `f64::atanh`, written via the logarithm. -/
noncomputable def artanhR (x : ℝ) : ℝ := Real.log ((1 + x) / (1 - x)) / 2

/-- Rust `f64::hypot`. -/
noncomputable def hypotR (x y : ℝ) : ℝ := Real.sqrt (x ^ 2 + y ^ 2)

/-- Rust `y.atan2(x)`: quadrant-aware arctangent. -/
noncomputable def atan2R (y x : ℝ) : ℝ :=
  if 0 < x then Real.arctan (y / x)
  else if x < 0 then
    (if 0 ≤ y then Real.arctan (y / x) + Real.pi else Real.arctan (y / x) - Real.pi)
  else if 0 < y then Real.pi / 2
  else if y < 0 then -Real.pi / 2
  else 0

/-- Rust `f64::to_radians`. -/
noncomputable def toRadiansR (x : ℝ) : ℝ := x * Real.pi / 180

/-- Rust `f64::to_degrees`. -/
noncomputable def toDegreesR (x : ℝ) : ℝ := x * 180 / Real.pi

/-- Rust `f64::round` over ℝ: round half away from zero. -/
noncomputable def rustRoundR (x : ℝ) : ℤ :=
  if 0 ≤ x then ⌊x + 1 / 2⌋ else -⌊-x + 1 / 2⌋

/-- `GeoMath::remainder` over ℝ (utility.rs:150). -/
noncomputable def remainderR (x denom : ℝ) : ℝ :=
  x - (rustRoundR (x / denom) : ℝ) * denom

/-- `GeoMath::eps_eq` over ℝ (utility.rs:104). -/
def epsEqR (x y : ℝ) : Prop := |x - y| < f64EpsR

/-- `GeoMath::ang_normalize` over ℝ (utility.rs:108):
`copysign(180, x)` is `-180` for negative `x`, else `180`. -/
noncomputable def angNormalizeR (x : ℝ) : ℝ :=
  if epsEqR |remainderR x 360| 180 then (if x < 0 then -180 else 180)
  else remainderR x 360

/-- `GeoMath::eatanhe` over ℝ (utility.rs:142): `es.is_sign_positive()`
idealized as `0 ≤ es`. -/
noncomputable def eatanheR (x es : ℝ) : ℝ :=
  if 0 ≤ es then es * artanhR (es * x) else -es * artanhR (es * x)

/-- `taupf` (utility.rs:154): the forward conformal-latitude map. -/
noncomputable def taupfR (tau es : ℝ) : ℝ :=
  let tau1 := hypotR 1 tau
  let sig := Real.sinh (eatanheR (tau / tau1) es)
  hypotR 1 sig * tau - sig * tau1

/-- One Newton increment `dtau` of `tauf` (utility.rs:175-177). -/
noncomputable def taufStep (taup es e2m tau : ℝ) : ℝ :=
  (taup - taupfR tau es) * (1 + e2m * tau ^ 2) /
    (e2m * hypotR 1 tau * hypotR 1 (taupfR tau es))

/-- The `tauf` Newton iterate without early exit: `n` steps from `tau`. -/
noncomputable def taufIter (taup es e2m : ℝ) : ℕ → ℝ → ℝ
  | 0, tau => tau
  | n + 1, tau => taufIter taup es e2m n (tau + taufStep taup es e2m tau)

/-- The `tauf` Newton loop (utility.rs:176-182): at most `n` more iterations,
each adding the step `dtau` to the iterate and breaking (after the add) the
first time `|dtau| < stol`. -/
noncomputable def taufLoop (taup es e2m stol : ℝ) : ℕ → ℝ → ℝ
  | 0, tau => tau
  | n + 1, tau =>
    let dtau := taufStep taup es e2m tau
    if |dtau| < stol then tau + dtau
    else taufLoop taup es e2m stol n (tau + dtau)

/-- The Newton seed of `tauf` (utility.rs:167-171). -/
noncomputable def taufSeed (taup es : ℝ) : ℝ :=
  if 70 < |taup| then taup * Real.exp (eatanheR 1 es) else taup / (1 - es ^ 2)

/-- `tauf` (utility.rs:161-184): invert the conformal-latitude map by Newton
iteration, `numit = 5` iterations maximum, with early exit at tolerance
`stol = (sqrt eps / 10) * max |taup| 1`. -/
noncomputable def taufR (taup es : ℝ) : ℝ :=
  taufLoop taup es (1 - es ^ 2) (Real.sqrt f64EpsR / 10 * max |taup| 1) 5
    (taufSeed taup es)

/-! ### Transverse Mercator inverse (transverse_mercator.rs) -/

/-- `polyval` (utility.rs:34): Horner fold, leading coefficient first. -/
noncomputable def polyvalR (p : List ℝ) (x : ℝ) : ℝ :=
  p.foldl (fun acc v => acc * x + v) 0

/-- WGS84 flattening `f = 1/298.257223563` (constants.rs). -/
noncomputable def wgs84F : ℝ := 1 / 298.257223563

/-- WGS84 semi-major axis in meters (constants.rs). -/
def wgs84A : ℝ := 6378137

/-- Third flattening `n = f/(2-f)` (transverse_mercator.rs:54). -/
noncomputable def tmN : ℝ := wgs84F / (2 - wgs84F)

/-- First eccentricity squared `e² = f(2-f)` (transverse_mercator.rs:55). -/
noncomputable def tmE2 : ℝ := wgs84F * (2 - wgs84F)

/-- `es = sign(f) * sqrt |e²|` (transverse_mercator.rs:68). -/
noncomputable def tmEs : ℝ := (if wgs84F < 0 then -1 else 1) * Real.sqrt |tmE2|

/-- `b1` (transverse_mercator.rs:70): `B1_COEFF = [1,4,64,256,256]`, `M = 3`. -/
noncomputable def tmB1 : ℝ :=
  polyvalR [1, 4, 64, 256] (tmN ^ 2) / (256 * (1 + tmN))

/-- `a1 = b1 * a`, the rectifying radius (transverse_mercator.rs:73). -/
noncomputable def tmA1 : ℝ := tmB1 * wgs84A

/-- `bet[1]` (transverse_mercator.rs:85 with BET_COEFF rows). -/
noncomputable def tmBet1 : ℝ :=
  tmN * polyvalR [384796, -382725, -6720, 932400, -1612800, 1209600] tmN / 2419200

/-- `bet[2]`. -/
noncomputable def tmBet2 : ℝ :=
  tmN ^ 2 * polyvalR [-1118711, 1695744, -1174656, 258048, 80640] tmN / 3870720

/-- `bet[3]`. -/
noncomputable def tmBet3 : ℝ :=
  tmN ^ 3 * polyvalR [22276, -16929, -15984, 12852] tmN / 362880

/-- `bet[4]`. -/
noncomputable def tmBet4 : ℝ :=
  tmN ^ 4 * polyvalR [-830251, -158400, 197865] tmN / 7257600

/-- `bet[5]`. -/
noncomputable def tmBet5 : ℝ :=
  tmN ^ 5 * polyvalR [-435388, 453717] tmN / 15966720

/-- `bet[6]`. -/
noncomputable def tmBet6 : ℝ :=
  tmN ^ 6 * polyvalR [20648693] tmN / 638668800

/-- `TransverseMercator::to_latlon` (transverse_mercator.rs:172-243) for the
UTM instance (`k0 = 0.9996`): the Clenshaw sum over ℂ is unrolled for
`MAXPOW = 6` (even `n`, so `y0` and `y1` start at `0`). -/
noncomputable def tmToLatlon (lonInput x y : ℝ) : ℝ × ℝ :=
  let k0 : ℝ := 9996 / 10000
  let xi0 := y / (tmA1 * k0)
  let eta0 := x / (tmA1 * k0)
  let xiSign : ℝ := if xi0 < 0 then -1 else 1
  let etaSign : ℝ := if eta0 < 0 then -1 else 1
  let xi1 := xi0 * xiSign
  let eta := eta0 * etaSign
  let backside := Real.pi / 2 < xi1
  let xi := if backside then Real.pi - xi1 else xi1
  let c0 := Real.cos (2 * xi)
  let ch0 := Real.cosh (2 * eta)
  let s0 := Real.sin (2 * xi)
  let sh0 := Real.sinh (2 * eta)
  let a : ℂ := ⟨2 * c0 * ch0, -2 * s0 * sh0⟩
  let y1b : ℂ := a * 0 - 0 - (tmBet6 : ℂ)
  let y0b : ℂ := a * y1b - 0 - (tmBet5 : ℂ)
  let y1c : ℂ := a * y0b - y1b - (tmBet4 : ℂ)
  let y0c : ℂ := a * y1c - y0b - (tmBet3 : ℂ)
  let y1d : ℂ := a * y0c - y1c - (tmBet2 : ℂ)
  let y0d : ℂ := a * y1d - y0c - (tmBet1 : ℂ)
  let a2 : ℂ := ⟨s0 * ch0, c0 * sh0⟩
  let y1e : ℂ := (⟨xi, eta⟩ : ℂ) + a2 * y0d
  let xip := y1e.re
  let etap := y1e.im
  let s := Real.sinh etap
  let c := max 0 (Real.cos xip)
  let r := hypotR s c
  let latlon : ℝ × ℝ :=
    if |r| < f64EpsR then (90, 0)
    else
      (toDegreesR (Real.arctan (taufR (Real.sin xip / r) tmEs)),
       toDegreesR (atan2R s c))
  let lat := latlon.1 * xiSign
  let lon1 := if backside then 180 - latlon.2 else latlon.2
  let lon2 := lon1 * etaSign
  (lat, angNormalizeR (lon2 + lonInput))

/-! ### Polar stereographic inverse (polar_stereographic.rs) -/

/-- `c = (1-f) * exp(eatanhe(1, es))` (polar_stereographic.rs:17). -/
noncomputable def psC : ℝ := (1 - wgs84F) * Real.exp (eatanheR 1 tmEs)

/-- `PolarStereographic::to_latlon` (polar_stereographic.rs:48-65) for the
UPS instance (`k0 = 0.994`). -/
noncomputable def psToLatlon (northp : Bool) (x y : ℝ) : ℝ × ℝ :=
  let k0 : ℝ := 994 / 1000
  let rho := hypotR x y
  let t := if rho ≠ 0 then rho / (2 * k0 * wgs84A / psC) else f64EpsR ^ 2
  let taup := (1 / t - t) / 2
  let tau := taufR taup tmEs
  ((if northp then 1 else -1) * toDegreesR (Real.arctan tau),
   toDegreesR (atan2R x (if northp then -y else y)))

/-- `FALSE_EASTING` (utm.rs:15-20), in meters. -/
def falseEastingM : ℕ → ℤ
  | 0 => UPSEASTING * TILE
  | 1 => UPSEASTING * TILE
  | _ => UTMEASTING * TILE

/-- `FALSE_NORTHING` (utm.rs:22-27), in meters. -/
def falseNorthingM : ℕ → ℤ
  | 0 => UPSEASTING * TILE
  | 1 => UPSEASTING * TILE
  | 2 => MAXUTM_S_ROW * TILE
  | _ => MINUTM_N_ROW * TILE

/-- `UtmUps::to_latlon` (utm.rs:243-256): subtract the false origin and
invert the projection for the point's kind. -/
noncomputable def UtmUps.toLatlonR (u : UtmUps) : ℝ × ℝ :=
  let ind : ℕ := (if u.zone ≠ 0 then 2 else 0) + (if u.northp then 1 else 0)
  let x : ℝ := (u.easting : ℝ) - (falseEastingM ind : ℝ)
  let y : ℝ := (u.northing : ℝ) - (falseNorthingM ind : ℝ)
  if u.zone ≠ 0 then tmToLatlon ((centralMeridian u.zone : ℚ) : ℝ) x y
  else psToLatlon u.northp x y

/-- `to_latitude_band` (mgrs.rs:762) on a real latitude. -/
noncomputable def toLatitudeBandR (lat : ℝ) : ℤ :=
  max (-10) (min 9 (rustDiv (⌊lat⌋ + 80) 8 - 10))

/-! ### The MGRS formatter (mgrs.rs:832-945, `impl Display for Mgrs`).

Panics of the Rust code (the `.expect` on `check_coords`, the `assert!` on
`utm_row`, and any out-of-range string index) are modelled as `none`. -/

/-- `LATBAND` (mgrs.rs:13). -/
def LATBANDL : List Char := "CDEFGHJKLMNPQRSTUVWX".data

/-- `UPSBAND` (mgrs.rs:14). -/
def UPSBANDL : List Char := "ABYZ".data

/-- `UTMROW` (mgrs.rs:10). -/
def UTMROWL : List Char := "ABCDEFGHJKLMNPQRSTUV".data

/-- `DIGITS` (mgrs.rs:15). -/
def DIGITSL : List Char := "0123456789".data

/-- `UTMCOLS` (mgrs.rs:9), indexed by `(zone-1) % 3` (Rust truncated `%`):
a negative index casts to a huge `usize` and panics, hence `none`. -/
def utmColsL (i : ℤ) : Option (List Char) :=
  if i = 0 then some ("ABCDEFGH".data)
  else if i = 1 then some ("JKLMNPQR".data)
  else if i = 2 then some ("STUVWXYZ".data)
  else none

/-- `UPSCOLS` (mgrs.rs:11), indexed by the UPS band index (always 0..3). -/
def upsColsL : ℕ → List Char
  | 0 => "JKLPQRSTUXYZ".data
  | 1 => "ABCFGHJKLPQR".data
  | 2 => "RSTUXYZ".data
  | _ => "ABCFGHJ".data

/-- `UPSROWS` (mgrs.rs:12), indexed by the hemisphere. -/
def upsRowsL : Bool → List Char
  | false => "ABCDEFGHJKLMNPQRSTUVWXYZ".data
  | true => "ABCDEFGHJKLMNP".data

/-- Indexing a Rust string with an `i32`/`i64` cast to `usize`: a negative or
out-of-range index panics (`none`). -/
def strIndex (l : List Char) (i : ℤ) : Option Char :=
  if 0 ≤ i then l[i.toNat]? else none

/-- The digit-emission loop of the formatter (mgrs.rs:935-940): `n` digits of
`v`, most significant first (position `z+c` receives `v % 10` after `c`
divisions). -/
def emitDigits : ℕ → ℤ → Option (List Char)
  | 0, _ => some []
  | n + 1, v =>
    match strIndex DIGITSL (rustMod v BASE), emitDigits n (rustDiv v BASE) with
    | some c, some rest => some (rest ++ [c])
    | _, _ => none

/-- `ANG_EPS` of the Display impl (mgrs.rs:835): `2^-(53-7)`. -/
noncomputable def angEpsDisplayR : ℝ := 1 / 2 ^ 46

/-- The latitude estimate of the formatter (mgrs.rs:838-865): a cheap
polynomial estimate from the northing; when the two band estimates disagree,
fall back to the full inverse projection. -/
noncomputable def fmtLat (m : Mgrs) : ℝ :=
  if 0 < m.utm.zone then
    let yEst0 : ℚ := if m.utm.northp then m.utm.northing
      else m.utm.northing - (UTM_N_SHIFT : ℚ)
    let yEst : ℚ := yEst0 / (TILE : ℚ)
    if |yEst| < 1 then ((9/10 * yEst : ℚ) : ℝ)
    else
      let poleAdd : ℚ := if 0 < yEst then 1 else -1
      let latPoleward : ℚ := 901/1000 * yEst + poleAdd * (135/1000)
      let latEastward : ℚ := 902/1000 * yEst * (1 - 185/100000000 * yEst ^ 2)
      if toLatitudeBand latPoleward = toLatitudeBand latEastward then
        (latPoleward : ℝ)
      else (UtmUps.toLatlonR m.utm).1
  else 0

/-- The rest of the formatter (mgrs.rs:867-944), given the latitude estimate:
validate/normalize via mgrs.rs `check_coords` (a failure panics through
`.expect`), emit the zone digits, the band/column/row letters (the `assert!`
on `utm_row` panics as `none`), and the `2 * precision` trailing digits;
trailing NULs of the fixed buffer are trimmed, so the output is the
concatenation of the written pieces. -/
noncomputable def fmtCore (m : Mgrs) (lat : ℝ) : Option (List Char) :=
  match checkCoordsM (decide (m.utm.zone ≠ 0)) m.utm.northp
      m.utm.easting m.utm.northing with
  | .error _ => none
  | .ok (northp, easting, northing) =>
    let zoneDigits : Option (List Char) :=
      if m.utm.zone ≠ 0 then
        match strIndex DIGITSL (rustDiv m.utm.zone BASE),
              strIndex DIGITSL (rustMod m.utm.zone BASE) with
        | some d1, some d2 => some [d1, d2]
        | _, _ => none
      else some []
    let ix := qfloor (easting * (MULT : ℚ))
    let iy := qfloor (northing * (MULT : ℚ))
    let mm := MULT * TILE
    let xh := rustDiv ix mm
    let yh := rustDiv iy mm
    let letters : Option (List Char) :=
      if m.utm.zone ≠ 0 then
        let bandIdx : ℤ :=
          if |lat| < angEpsDisplayR then (if northp then 0 else -1)
          else toLatitudeBandR lat
        let colIdx := xh - MINUTMCOL
        let rowIdx := utmRow bandIdx colIdx (rustMod yh UTM_ROW_PERIOD)
        if rowIdx ≠ yh - (if northp then MINUTM_N_ROW else MAXUTM_S_ROW) then none
        else
          match strIndex LATBANDL (10 + bandIdx),
                utmColsL (rustMod (m.utm.zone - 1) 3),
                strIndex UTMROWL
                  (rustMod (yh + (if rustMod (m.utm.zone - 1) 2 ≠ 0 then
                    UTM_EVEN_ROW_SHIFT else 0)) UTM_ROW_PERIOD) with
          | some bc, some colsStr, some rc =>
            (match strIndex colsStr colIdx with
             | some cc => some [bc, cc, rc]
             | none => none)
          | _, _, _ => none
      else
        let eastp := UPSEASTING ≤ xh
        let bandIdx : ℕ := (if northp then 2 else 0) + (if eastp then 1 else 0)
        match strIndex UPSBANDL (bandIdx : ℤ),
              strIndex (upsColsL bandIdx)
                (xh - (if eastp then UPSEASTING
                       else if northp then MINUPS_N_IND else MINUPS_S_IND)),
              strIndex (upsRowsL northp)
                (yh - (if northp then MINUPS_N_IND else MINUPS_S_IND)) with
        | some bc, some cc, some rc => some [bc, cc, rc]
        | _, _, _ => none
    let digitsPart : Option (List Char) :=
      if 0 < m.precision then
        -- the exponent (MAX_PRECISION - precision) is cast `as u32`: for a
        -- precision beyond 11 it wraps and the power overflows, modelled as
        -- abnormal termination
        if MAX_PRECISION < m.precision then none
        else
          let d : ℤ := BASE ^ (MAX_PRECISION - m.precision).toNat
          match emitDigits m.precision.toNat (rustDiv (ix - mm * xh) d),
                emitDigits m.precision.toNat (rustDiv (iy - mm * yh) d) with
          | some dx, some dy => some (dx ++ dy)
          | _, _ => none
      else some []
    match zoneDigits, letters, digitsPart with
    | some zd, some ls, some dp => some (zd ++ ls ++ dp)
    | _, _, _ => none

/-- `impl Display for Mgrs` (mgrs.rs:832-945) as a total function to
`Option`: `none` models a panic. -/
noncomputable def Mgrs.fmt (m : Mgrs) : Option (List Char) :=
  fmtCore m (fmtLat m)

end RealKernel

/-! ## Helper lemmas -/

theorem qfloor_eq_floor (q : ℚ) : qfloor q = ⌊q⌋ := Rat.floor_def.symm

theorem qfloor_le (q : ℚ) : (qfloor q : ℚ) ≤ q := by
  rw [qfloor_eq_floor]; exact_mod_cast Int.floor_le q

theorem lt_qfloor_add_one (q : ℚ) : q < (qfloor q : ℚ) + 1 := by
  rw [qfloor_eq_floor]; exact_mod_cast Int.lt_floor_add_one q

theorem rustRound_abs (q : ℚ) : |(rustRound q : ℚ) - q| ≤ 1/2 := by
  unfold rustRound
  rcases le_or_lt 0 q with h | h
  · simp only [if_pos h]
    have h1 := qfloor_le (q + 1/2)
    have h2 := lt_qfloor_add_one (q + 1/2)
    rw [abs_le]; constructor <;> linarith
  · simp only [if_neg (not_le.mpr h)]
    have h1 := qfloor_le (-q + 1/2)
    have h2 := lt_qfloor_add_one (-q + 1/2)
    rw [abs_le]; push_cast; constructor <;> linarith

theorem remainder_abs (x : ℚ) : |GeoMath.remainder x 360| ≤ 180 := by
  unfold GeoMath.remainder
  have h := rustRound_abs (x / 360)
  rw [abs_le] at h ⊢
  constructor <;> nlinarith [h.1, h.2]

theorem angNormalize_range (x : ℚ) :
    -180 ≤ GeoMath.angNormalize x ∧ GeoMath.angNormalize x ≤ 180 := by
  unfold GeoMath.angNormalize
  have h := remainder_abs x
  rw [abs_le] at h
  split_ifs with h1 h2
  · exact ⟨le_refl _, by norm_num⟩
  · exact ⟨by norm_num, le_refl _⟩
  · exact h

theorem lonIntOf_range (lon : ℚ) : -180 ≤ lonIntOf lon ∧ lonIntOf lon ≤ 179 := by
  have hrange := angNormalize_range lon
  have hfl : -180 ≤ qfloor (GeoMath.angNormalize lon) ∧
      qfloor (GeoMath.angNormalize lon) ≤ 180 := by
    constructor
    · rw [qfloor_eq_floor]
      exact Int.le_floor.mpr (by exact_mod_cast hrange.1)
    · have h2 : ((qfloor (GeoMath.angNormalize lon) : ℤ) : ℚ) ≤ 180 :=
        (qfloor_le _).trans hrange.2
      exact_mod_cast h2
  unfold lonIntOf
  split <;> omega

/-! ## Helper lemmas for the parser -/

theorem wrap32_id {n : ℤ} (h1 : -2 ^ 31 ≤ n) (h2 : n < 2 ^ 31) : wrap32 n = n := by
  unfold wrap32; omega

theorem qfloor_bounds {q : ℚ} {lo hi : ℤ} (h1 : (lo : ℚ) ≤ q) (h2 : q ≤ (hi : ℚ)) :
    lo ≤ qfloor q ∧ qfloor q ≤ hi := by
  constructor
  · rw [qfloor_eq_floor]; exact Int.le_floor.mpr h1
  · have h3 : ((qfloor q : ℤ) : ℚ) ≤ (hi : ℚ) := (qfloor_le q).trans h2
    exact_mod_cast h3

theorem rustMod_nonneg_bounds {a b : ℤ} (ha : 0 ≤ a) (hb : 0 < b) :
    0 ≤ rustMod a b ∧ rustMod a b < b := by
  unfold rustMod
  rw [Int.tmod_eq_emod ha (le_of_lt hb)]
  exact ⟨Int.emod_nonneg _ (ne_of_gt hb), Int.emod_lt_of_pos _ hb⟩

theorem tdiv2_bounds {s : ℤ} (h1 : -180 ≤ s) (h2 : s ≤ 198) :
    -90 ≤ Int.tdiv s 2 ∧ Int.tdiv s 2 ≤ 99 := by
  rcases le_or_lt 0 s with h | h
  · rw [Int.tdiv_eq_ediv h (by norm_num)]
    omega
  · have hneg : Int.tdiv s 2 = -Int.tdiv (-s) 2 := by
      rw [← Int.neg_tdiv, neg_neg]
    rw [hneg, Int.tdiv_eq_ediv (by omega) (by norm_num)]
    omega

theorem digitsVal_bounds :
    ∀ ds : List Char, (∀ c ∈ ds, isDigitByte c) →
      0 ≤ digitsVal ds ∧ digitsVal ds < 10 ^ ds.length := by
  intro ds
  induction ds with
  | nil => intro _; simp [digitsVal]
  | cons c ds ih =>
    intro h
    have hc := h c (List.mem_cons_self c ds)
    have hds := ih fun x hx => h x (List.mem_cons_of_mem _ hx)
    have hD : (0 : ℤ) < 10 ^ ds.length := pow_pos (by norm_num) _
    have hd : 0 ≤ digitVal1 c ∧ digitVal1 c ≤ 9 := by
      unfold digitVal1; unfold isDigitByte at hc; omega
    simp only [digitsVal, List.length_cons, pow_succ]
    constructor
    · nlinarith [hds.1, hd.1]
    · nlinarith [hds.2, hd.2]

theorem wfoldDigits_eq :
    ∀ (ds : List Char) (x : ℤ), (∀ c ∈ ds, isDigitByte c) →
      (|x| + 1) * 10 ^ ds.length ≤ 2 ^ 31 →
      wfoldDigits x ds = x * 10 ^ ds.length + digitsVal ds := by
  intro ds
  induction ds with
  | nil => intro x _ _; simp [wfoldDigits, digitsVal]
  | cons c ds ih =>
    intro x h hb
    have hc := h c (List.mem_cons_self c ds)
    have hd : 0 ≤ digitVal1 c ∧ digitVal1 c ≤ 9 := by
      unfold digitVal1; unfold isDigitByte at hc; omega
    have hp1 : (1 : ℤ) ≤ 10 ^ ds.length := one_le_pow₀ (by norm_num)
    have hxa := abs_nonneg x
    have hx1 := le_abs_self x
    have hx2 := neg_abs_le x
    rw [List.length_cons, pow_succ] at hb
    have hkey : 10 * (|x| + 1) ≤ 2 ^ 31 := by nlinarith
    have hstep : wrap32 (BASE * x + digitVal1 c) = 10 * x + digitVal1 c := by
      show wrap32 (10 * x + digitVal1 c) = _
      exact wrap32_id (by linarith) (by linarith)
    have habs2 : |10 * x + digitVal1 c| + 1 ≤ 10 * (|x| + 1) := by
      have h1 : |10 * x + digitVal1 c| ≤ |10 * x| + |digitVal1 c| := abs_add _ _
      have h2 : |10 * x| = 10 * |x| := by
        rw [abs_mul]; norm_num
      have h3 : |digitVal1 c| = digitVal1 c := abs_of_nonneg hd.1
      linarith
    have hbtail : (|10 * x + digitVal1 c| + 1) * 10 ^ ds.length ≤ 2 ^ 31 := by
      have h4 : (|10 * x + digitVal1 c| + 1) * 10 ^ ds.length ≤
          10 * (|x| + 1) * 10 ^ ds.length :=
        mul_le_mul_of_nonneg_right habs2 (by positivity)
      nlinarith
    calc wfoldDigits x (c :: ds)
        = wfoldDigits (wrap32 (BASE * x + digitVal1 c)) ds := rfl
      _ = wfoldDigits (10 * x + digitVal1 c) ds := by rw [hstep]
      _ = (10 * x + digitVal1 c) * 10 ^ ds.length + digitsVal ds :=
          ih _ (fun y hy => h y (List.mem_cons_of_mem _ hy)) hbtail
      _ = x * 10 ^ (c :: ds).length + digitsVal (c :: ds) := by
          simp only [digitsVal, List.length_cons, pow_succ]; ring

theorem wpow_eq : ∀ (n : ℕ) (u : ℤ), 0 ≤ u → u * 10 ^ n < 2 ^ 31 →
    wpow n u = u * 10 ^ n := by
  intro n
  induction n with
  | zero => intro u _ _; simp [wpow]
  | succ n ih =>
    intro u hu hb
    have hp1 : (1 : ℤ) ≤ 10 ^ n := one_le_pow₀ (by norm_num)
    rw [pow_succ] at hb
    have h10 : 10 * u < 2 ^ 31 := by nlinarith
    have hstep : wrap32 (BASE * u) = 10 * u := by
      show wrap32 (10 * u) = _
      exact wrap32_id (by linarith) h10
    calc wpow (n + 1) u = wpow n (wrap32 (BASE * u)) := rfl
      _ = wpow n (10 * u) := by rw [hstep]
      _ = 10 * u * 10 ^ n := ih _ (by linarith) (by nlinarith)
      _ = u * 10 ^ (n + 1) := by rw [pow_succ]; ring

theorem scanZone_fst_ge (cs : List Char) :
    ∀ (fuel p : ℕ) (z : ℤ), p ≤ (scanZone cs fuel p z).1 := by
  intro fuel
  induction fuel with
  | zero => intro p z; simp [scanZone]
  | succ fuel ih =>
    intro p z
    rw [scanZone]
    split
    · next c hget =>
      split
      · exact le_trans (Nat.le_succ p) (ih (p + 1) _)
      · simp
    · next => simp

theorem scanZone_snd_of_fst_eq (cs : List Char) (fuel : ℕ) (p : ℕ) (z : ℤ) :
    (scanZone cs fuel p z).1 = p → (scanZone cs fuel p z).2 = z := by
  cases fuel with
  | zero => intro _; simp [scanZone]
  | succ fuel =>
    rw [scanZone]
    split
    · next c hget =>
      split
      · intro h
        exfalso
        have h2 := scanZone_fst_ge cs fuel (p + 1) (wrap32 (10 * z + digitVal1 c))
        omega
      · intro _; rfl
    · intro _; rfl

theorem bandIndex_utm_range (c : Char) :
    bandIndex true c = -1 ∨ (0 ≤ bandIndex true c ∧ bandIndex true c ≤ 19) := by
  simp only [bandIndex]
  split_ifs <;> omega

theorem bandIndex_ups_range (c : Char) :
    bandIndex false c = -1 ∨ (0 ≤ bandIndex false c ∧ bandIndex false c ≤ 3) := by
  simp only [bandIndex, Bool.false_eq_true, if_false]
  split_ifs <;> omega

theorem utmColIndex_spec (m : ℤ) (c : Char) (hm : m = 0 ∨ m = 1 ∨ m = 2) :
    ∃ v, utmColIndex m c = some v ∧ (v = -1 ∨ (0 ≤ v ∧ v ≤ 7)) := by
  simp only [utmColIndex]
  rcases hm with rfl | rfl | rfl <;> norm_num <;> split_ifs <;> omega

theorem upsColIndex_spec (b : ℤ) (c : Char) (hb0 : 0 ≤ b) (hb3 : b ≤ 3) :
    ∃ v, upsColIndex b c = some v ∧ (v = -1 ∨ (0 ≤ v ∧ v ≤ 11)) := by
  simp only [upsColIndex]
  interval_cases b <;> norm_num <;> split_ifs <;> omega

theorem rowIndexRaw_range (utmp northp : Bool) (c : Char) :
    rowIndexRaw utmp northp c = -1 ∨
      (0 ≤ rowIndexRaw utmp northp c ∧ rowIndexRaw utmp northp c ≤ 23) := by
  cases utmp <;> cases northp <;>
    simp only [rowIndexRaw, Bool.false_eq_true, if_false, if_true] <;>
    split_ifs <;> omega

theorem utmRow_bounds (b c0 r : ℤ) (hb1 : -10 ≤ b) (hb2 : b ≤ 9)
    (hr1 : 0 ≤ r) (hr2 : r < 20) :
    -130 ≤ utmRow b c0 r ∧ utmRow b c0 r ≤ 130 := by
  simp only [utmRow, UTM_ROW_PERIOD, MAXUTM_S_ROW]
  have hbq1 : (-10 : ℚ) ≤ (b : ℚ) := by exact_mod_cast hb1
  have hbq2 : (b : ℚ) ≤ 9 := by exact_mod_cast hb2
  set minRow : ℤ := if -10 < b then
      qfloor (100 * (8 * (b : ℚ) + 4) / 90 - 43/10 -
        1/10 * (if (decide (0 ≤ b) : Bool) then 1 else 0))
    else -90 with hminRow
  set maxRow : ℤ := if b < 9 then
      qfloor (100 * (8 * (b : ℚ) + 4) / 90 + 44/10 -
        1/10 * (if (decide (0 ≤ b) : Bool) then 1 else 0))
    else 94 with hmaxRow
  have hminB : -90 ≤ minRow ∧ minRow ≤ 99 := by
    rw [hminRow]
    split_ifs with h1 h2
    · exact qfloor_bounds (by push_cast; linarith) (by push_cast; linarith)
    · exact qfloor_bounds (by push_cast; linarith) (by push_cast; linarith)
    · norm_num
  have hmaxB : -90 ≤ maxRow ∧ maxRow ≤ 99 := by
    rw [hmaxRow]
    split_ifs with h1 h2
    · exact qfloor_bounds (by push_cast; linarith) (by push_cast; linarith)
    · exact qfloor_bounds (by push_cast; linarith) (by push_cast; linarith)
    · norm_num
  have h20 : rustDiv 20 2 = 10 := by decide
  rw [h20]
  have hbase : -90 ≤ rustDiv (minRow + maxRow) 2 ∧ rustDiv (minRow + maxRow) 2 ≤ 99 :=
    tdiv2_bounds (by omega) (by omega)
  have hmod : 0 ≤ rustMod (r - (rustDiv (minRow + maxRow) 2 - 10) + 100) 20 ∧
      rustMod (r - (rustDiv (minRow + maxRow) 2 - 10) + 100) 20 < 20 :=
    rustMod_nonneg_bounds (by omega) (by norm_num)
  split_ifs <;> omega

theorem gridZoneOnly_precision (z : ℤ) (u n : Bool) (b : ℤ) :
    (gridZoneOnly z u n b).precision = -1 := by
  simp only [gridZoneOnly]
  split_ifs <;> rfl

theorem rowIndexRaw_utm_range (northp : Bool) (c : Char) :
    rowIndexRaw true northp c = -1 ∨
      (0 ≤ rowIndexRaw true northp c ∧ rowIndexRaw true northp c ≤ 19) := by
  cases northp <;>
    simp only [rowIndexRaw, Bool.false_eq_true, if_false, if_true] <;>
    split_ifs <;> omega

theorem readDigits_spec (cs : List Char) (k : ℕ) :
    ∀ (n i : ℕ) (unit x y : ℤ), i + n + k ≤ cs.length →
      (∃ e, readDigits cs k n i unit x y = some (.error e)) ∨
      ((∀ c ∈ (cs.drop i).take n, isDigitByte c) ∧
       (∀ c ∈ (cs.drop (i + k)).take n, isDigitByte c) ∧
       readDigits cs k n i unit x y =
         some (.ok (wpow n unit,
           wfoldDigits x ((cs.drop i).take n),
           wfoldDigits y ((cs.drop (i + k)).take n)))) := by
  intro n
  induction n with
  | zero =>
    intro i unit x y _
    right
    simp [readDigits, wpow, wfoldDigits]
  | succ n ih =>
    intro i unit x y h
    have hi : i < cs.length := by omega
    have hik : i + k < cs.length := by omega
    have hgi := List.getElem?_eq_getElem hi
    have hgik := List.getElem?_eq_getElem hik
    simp only [readDigits, hgi, hgik]
    by_cases hd1 : isDigitByte cs[i]
    · rw [if_pos hd1]
      by_cases hd2 : isDigitByte cs[i + k]
      · rw [if_pos hd2]
        rcases ih (i + 1) (wrap32 (BASE * unit))
            (wrap32 (BASE * x + digitVal1 cs[i]))
            (wrap32 (BASE * y + digitVal1 cs[i + k])) (by omega) with
          ⟨e, he⟩ | ⟨ha, hb, hc⟩
        · exact Or.inl ⟨e, he⟩
        · right
          have hs1 : (cs.drop i).take (n + 1) = cs[i] :: (cs.drop (i + 1)).take n := by
            rw [List.drop_eq_getElem_cons hi, List.take_succ_cons]
          have hix : i + k + 1 = i + 1 + k := by omega
          have hs2 : (cs.drop (i + k)).take (n + 1) =
              cs[i + k] :: (cs.drop (i + 1 + k)).take n := by
            rw [List.drop_eq_getElem_cons hik, List.take_succ_cons, hix]
          refine ⟨?_, ?_, ?_⟩
          · rw [hs1]
            intro c hcm
            rcases List.mem_cons.mp hcm with rfl | hm
            · exact hd1
            · exact ha c hm
          · rw [hs2]
            intro c hcm
            rcases List.mem_cons.mp hcm with rfl | hm
            · exact hd2
            · exact hb c hm
          · rw [hs1, hs2]
            exact hc
      · rw [if_neg hd2]
        exact Or.inl ⟨_, rfl⟩
    · rw [if_neg hd1]
      exact Or.inl ⟨_, rfl⟩

set_option maxHeartbeats 1000000 in
theorem finishDigits_spec (value : List Char) (len p3 : ℕ) (zone : ℤ)
    (northp : Bool) (x0 y0 : ℤ) (hlen : len = value.length) (hp3 : p3 ≤ len)
    (hx : -250 ≤ x0 ∧ x0 ≤ 250) (hy : -250 ≤ y0 ∧ y0 ≤ 250) :
    ∃ r, finishDigits value len p3 zone northp x0 y0 = some r ∧
      ∀ m, r = .ok m →
        m.utm.zone = zone ∧ m.utm.northp = northp ∧
        0 ≤ m.precision ∧ m.precision ≤ 11 ∧
        (m.precision ≤ 6 →
          ∃ (k : ℕ) (ds : List Char),
            (k : ℤ) = m.precision ∧
            ds = value.drop p3 ∧
            ds.length = 2 * k ∧
            (∀ c ∈ ds, isDigitByte c) ∧
            m.utm.easting = (TILE : ℚ) *
              ((2 * (x0 * 10 ^ k + digitsVal (ds.take k)) + 1 : ℤ) : ℚ) /
              ((2 * 10 ^ k : ℤ) : ℚ) ∧
            m.utm.northing = (TILE : ℚ) *
              ((2 * (y0 * 10 ^ k + digitsVal (ds.drop k)) + 1 : ℤ) : ℚ) /
              ((2 * 10 ^ k : ℤ) : ℚ)) := by
  rcases readDigits_spec value ((len - p3) / 2) ((len - p3) / 2) p3 1 x0 y0
      (by omega) with ⟨e, he⟩ | ⟨ha, hb, hc⟩
  · refine ⟨.error e, ?_, fun m hm => by cases hm⟩
    simp only [finishDigits]
    rw [he]
  · have hstep : finishDigits value len p3 zone northp x0 y0 =
        finishTail value len p3 zone northp (wpow ((len - p3) / 2) 1)
          (wfoldDigits x0 ((value.drop p3).take ((len - p3) / 2)))
          (wfoldDigits y0 ((value.drop (p3 + (len - p3) / 2)).take ((len - p3) / 2))) := by
      simp only [finishDigits]
      rw [hc]
    rw [hstep]
    simp only [finishTail]
    by_cases hodd : (len - p3) % 2 = 1
    · rw [if_pos hodd]
      split
      · next hnone =>
        exfalso
        rw [List.getElem?_eq_none_iff] at hnone
        omega
      · next clast hsome =>
        by_cases hdl : isDigitByte clast
        · rw [if_neg (not_not_intro hdl)]
          exact ⟨.error .oddDigitCount, rfl, fun m hm => by cases hm⟩
        · rw [if_pos hdl]
          exact ⟨.error .nonDigit, rfl, fun m hm => by cases hm⟩
    · rw [if_neg hodd]
      by_cases hbig : MAX_PRECISION < (((len - p3) / 2 : ℕ) : ℤ)
      · rw [if_pos hbig]
        exact ⟨.error .tooManyDigits, rfl, fun m hm => by cases hm⟩
      · rw [if_neg hbig]
        refine ⟨_, rfl, ?_⟩
        intro m hm
        injection hm with hm
        subst hm
        simp only [MAX_PRECISION] at hbig
        have hk11 : ((((len - p3) / 2 : ℕ)) : ℤ) ≤ 11 := by omega
        refine ⟨rfl, rfl, Int.natCast_nonneg _, hk11, ?_⟩
        intro hk6
        set k := (len - p3) / 2 with hkdef
        have hk6Z : ((k : ℕ) : ℤ) ≤ 6 := hk6
        have hk6n : k ≤ 6 := by exact_mod_cast hk6Z
        have heven : len - p3 = 2 * k := by omega
        have hdsl : (value.drop p3).length = 2 * k := by
          rw [List.length_drop]; omega
        have hys : (value.drop p3).drop k = (value.drop (p3 + k)).take k := by
          rw [List.drop_drop]
          exact (List.take_of_length_le (by rw [List.length_drop]; omega)).symm
        have hpow6 : (10 : ℤ) ^ k ≤ 10 ^ 6 :=
          pow_le_pow_right₀ (by norm_num) hk6n
        have hpow1 : (1 : ℤ) ≤ 10 ^ k := one_le_pow₀ (by norm_num)
        have hunit : wpow k 1 = 10 ^ k := by
          rw [wpow_eq k 1 (by norm_num) (by nlinarith)]
          ring
        have hxlen : ((value.drop p3).take k).length = k := by
          rw [List.length_take]; omega
        have hylen : ((value.drop (p3 + k)).take k).length = k := by
          rw [List.length_take, List.length_drop]; omega
        have hEx := digitsVal_bounds _ ha
        have hEy := digitsVal_bounds _ hb
        rw [hxlen] at hEx
        rw [hylen] at hEy
        have hax : |x0| ≤ 250 := abs_le.mpr hx
        have hay : |y0| ≤ 250 := abs_le.mpr hy
        have habs0 := abs_nonneg x0
        have habs1 := abs_nonneg y0
        have hfx : wfoldDigits x0 ((value.drop p3).take k) =
            x0 * 10 ^ k + digitsVal ((value.drop p3).take k) := by
          have h0 := wfoldDigits_eq ((value.drop p3).take k) x0 ha
            (by rw [hxlen]; nlinarith)
          rw [hxlen] at h0
          exact h0
        have hfy : wfoldDigits y0 ((value.drop (p3 + k)).take k) =
            y0 * 10 ^ k + digitsVal ((value.drop (p3 + k)).take k) := by
          have h0 := wfoldDigits_eq ((value.drop (p3 + k)).take k) y0 hb
            (by rw [hylen]; nlinarith)
          rw [hylen] at h0
          exact h0
        have habsx : |x0 * 10 ^ k| ≤ 250 * 10 ^ 6 := by
          rw [abs_mul, abs_of_nonneg (by positivity : (0:ℤ) ≤ 10 ^ k)]
          nlinarith
        have habsy : |y0 * 10 ^ k| ≤ 250 * 10 ^ 6 := by
          rw [abs_mul, abs_of_nonneg (by positivity : (0:ℤ) ≤ 10 ^ k)]
          nlinarith
        have hxr1 := le_abs_self (x0 * 10 ^ k)
        have hxr2 := neg_abs_le (x0 * 10 ^ k)
        have hyr1 := le_abs_self (y0 * 10 ^ k)
        have hyr2 := neg_abs_le (y0 * 10 ^ k)
        have hwx : wrap32 (2 * (x0 * 10 ^ k + digitsVal ((value.drop p3).take k)) + 1) =
            2 * (x0 * 10 ^ k + digitsVal ((value.drop p3).take k)) + 1 := by
          apply wrap32_id <;> nlinarith [hEx.1, hEx.2]
        have hwy : wrap32 (2 * (y0 * 10 ^ k + digitsVal ((value.drop (p3 + k)).take k)) + 1) =
            2 * (y0 * 10 ^ k + digitsVal ((value.drop (p3 + k)).take k)) + 1 := by
          apply wrap32_id <;> nlinarith [hEy.1, hEy.2]
        have hwu : wrap32 (2 * 10 ^ k) = 2 * 10 ^ k := by
          apply wrap32_id <;> nlinarith
        refine ⟨k, value.drop p3, rfl, rfl, hdsl, ?_, ?_, ?_⟩
        · intro c hcm
          rcases List.mem_append.mp
              (by rw [List.take_append_drop k (value.drop p3)]; exact hcm) with hm | hm
          · exact ha c hm
          · rw [hys] at hm
            exact hb c hm
        · rw [hfx, hunit, hwx, hwu]
        · rw [hfy, hunit, hwy, hwu, hys]

set_option maxHeartbeats 1000000 in
theorem fromStrCore_spec (cs0 : List Char) :
    ∃ r, fromStrCore cs0 = some r ∧
      ∀ m, r = .ok m →
        m.precision ≤ 11 ∧
        (0 ≤ m.precision → m.precision ≤ 6 →
          ∃ (k : ℕ) (x0 y0 : ℤ) (ds : List Char) (q : ℕ),
            (k : ℤ) = m.precision ∧
            -250 ≤ x0 ∧ x0 ≤ 250 ∧ -250 ≤ y0 ∧ y0 ≤ 250 ∧
            ds = (cs0.map asciiUpper).drop q ∧
            ds.length = 2 * k ∧
            (∀ c ∈ ds, isDigitByte c) ∧
            m.utm.easting = (TILE : ℚ) *
              ((2 * (x0 * 10 ^ k + digitsVal (ds.take k)) + 1 : ℤ) : ℚ) /
              ((2 * 10 ^ k : ℤ) : ℚ) ∧
            m.utm.northing = (TILE : ℚ) *
              ((2 * (y0 * 10 ^ k + digitsVal (ds.drop k)) + 1 : ℤ) : ℚ) /
              ((2 * 10 ^ k : ℤ) : ℚ)) := by
  simp only [fromStrCore, zonespecUPS]
  set value := cs0.map asciiUpper with hvalue
  set len := value.length with hlend
  set p := (scanZone value len 0 0).1 with hpd
  set zone := (scanZone value len 0 0).2 with hzd
  by_cases hascii : (value.all fun c => c.toNat ≤ 127) = true
  case neg => rw [if_pos hascii]; exact ⟨_, rfl, fun m hm => by cases hm⟩
  rw [if_neg (not_not_intro hascii)]
  by_cases hinv : 3 ≤ len ∧ value.take 3 = ['I', 'N', 'V']
  case pos => rw [if_pos hinv]; exact ⟨_, rfl, fun m hm => by cases hm⟩
  rw [if_neg hinv]
  by_cases hzr : 0 < p ∧ ¬(1 ≤ zone ∧ zone ≤ 60)
  case pos => rw [if_pos hzr]; exact ⟨_, rfl, fun m hm => by cases hm⟩
  rw [if_neg hzr]
  by_cases hp2 : 2 < p
  case pos => rw [if_pos hp2]; exact ⟨_, rfl, fun m hm => by cases hm⟩
  rw [if_neg hp2]
  by_cases hshort : len - p < 1
  case pos => rw [if_pos hshort]; exact ⟨_, rfl, fun m hm => by cases hm⟩
  rw [if_neg hshort]
  have hplen : p < len := by omega
  split
  next hnone =>
    exact absurd (List.getElem?_eq_none_iff.mp hnone) (by omega)
  next c hget =>
    by_cases hband : bandIndex (decide (zone ≠ 0)) c = -1
    case pos => rw [if_pos hband]; exact ⟨_, rfl, fun m hm => by cases hm⟩
    rw [if_neg hband]
    by_cases hp1len : p + 1 = len
    case pos =>
      rw [if_pos hp1len]
      refine ⟨_, rfl, ?_⟩
      intro m hm
      injection hm with hm
      subst hm
      rw [gridZoneOnly_precision]
      exact ⟨by norm_num, fun h0 => absurd h0 (by norm_num)⟩
    rw [if_neg hp1len]
    by_cases hrl : len - (p + 1) < 2
    case pos => rw [if_pos hrl]; exact ⟨_, rfl, fun m hm => by cases hm⟩
    rw [if_neg hrl]
    have hp1lt : p + 1 < len := by omega
    split
    next hnone =>
      exact absurd (List.getElem?_eq_none_iff.mp hnone) (by omega)
    next c2 hget2 =>
      by_cases hz0 : zone = 0
      · -- UPS side
        have hu : (decide (zone ≠ 0)) = false := by simp [hz0]
        rw [hu] at hband
        simp only [hu, Bool.false_eq_true, if_false]
        have hubb : 0 ≤ bandIndex false c ∧ bandIndex false c ≤ 3 :=
          (bandIndex_ups_range c).resolve_left hband
        obtain ⟨cv, hcv, hcvr⟩ := upsColIndex_spec (bandIndex false c) c2 hubb.1 hubb.2
        split
        next hnone => exact absurd (hcv.symm.trans hnone) (by simp)
        next colIdx0 hsome =>
          have hcol0 : colIdx0 = cv :=
            Option.some.inj (hsome.symm.trans hcv)
          subst hcol0
          by_cases hcneg : colIdx0 = -1
          case pos => rw [if_pos hcneg]; exact ⟨_, rfl, fun m hm => by cases hm⟩
          rw [if_neg hcneg]
          have hcr : 0 ≤ colIdx0 ∧ colIdx0 ≤ 11 := hcvr.resolve_left hcneg
          have hp2lt : p + 1 + 1 < len := by omega
          split
          next hnone =>
            exact absurd (List.getElem?_eq_none_iff.mp hnone) (by omega)
          next c3 hget3 =>
            by_cases hrneg : rowIndexRaw false (decide (2 ≤ bandIndex false c)) c3 = -1
            case pos => rw [if_pos hrneg]; exact ⟨_, rfl, fun m hm => by cases hm⟩
            rw [if_neg hrneg]
            have hrr : 0 ≤ rowIndexRaw false (decide (2 ≤ bandIndex false c)) c3 ∧
                rowIndexRaw false (decide (2 ≤ bandIndex false c)) c3 ≤ 23 :=
              (rowIndexRaw_range false _ c3).resolve_left hrneg
            have hx : -250 ≤ colIdx0 +
                (if rustMod (bandIndex false c) 2 = 1 then UPSEASTING
                 else if (decide (2 ≤ bandIndex false c) : Bool) = true then MINUPS_N_IND
                 else MINUPS_S_IND) ∧ colIdx0 +
                (if rustMod (bandIndex false c) 2 = 1 then UPSEASTING
                 else if (decide (2 ≤ bandIndex false c) : Bool) = true then MINUPS_N_IND
                 else MINUPS_S_IND) ≤ 250 := by
              simp only [UPSEASTING, MINUPS_N_IND, MINUPS_S_IND]
              constructor <;> split_ifs <;> omega
            have hy : -250 ≤ rowIndexRaw false (decide (2 ≤ bandIndex false c)) c3 +
                (if (decide (2 ≤ bandIndex false c) : Bool) = true then MINUPS_N_IND
                 else MINUPS_S_IND) ∧
                rowIndexRaw false (decide (2 ≤ bandIndex false c)) c3 +
                (if (decide (2 ≤ bandIndex false c) : Bool) = true then MINUPS_N_IND
                 else MINUPS_S_IND) ≤ 250 := by
              simp only [MINUPS_N_IND, MINUPS_S_IND]
              constructor <;> split_ifs <;> omega
            obtain ⟨r, hrfd, hprop⟩ :=
              finishDigits_spec value len (p + 1 + 1 + 1) zone
                (decide (2 ≤ bandIndex false c)) _ _ hlend (by omega) hx hy
            refine ⟨r, hrfd, ?_⟩
            intro m hm
            obtain ⟨_, _, _, h11, hpay⟩ := hprop m hm
            refine ⟨h11, ?_⟩
            intro _ h6
            obtain ⟨k, ds, hk, hds, hdsl, hdig, he, hn2⟩ := hpay h6
            exact ⟨k, _, _, ds, p + 1 + 1 + 1, hk, hx.1, hx.2, hy.1, hy.2,
              hds, hdsl, hdig, he, hn2⟩
      · -- UTM side
        have hu : (decide (zone ≠ 0)) = true := by simp [hz0]
        rw [hu] at hband
        simp only [hu, if_true]
        have hz60 : 1 ≤ zone ∧ zone ≤ 60 := by
          by_contra hn
          have hp0 : p = 0 := by
            by_contra hpn
            exact hzr ⟨Nat.pos_of_ne_zero hpn, hn⟩
          exact hz0 (scanZone_snd_of_fst_eq value len 0 0 hp0)
        have hmod3 : rustMod (zone - 1) 3 = 0 ∨ rustMod (zone - 1) 3 = 1 ∨
            rustMod (zone - 1) 3 = 2 := by
          have := rustMod_nonneg_bounds (a := zone - 1) (b := 3) (by omega) (by norm_num)
          omega
        obtain ⟨cv, hcv, hcvr⟩ := utmColIndex_spec (rustMod (zone - 1) 3) c2 hmod3
        split
        next hnone => exact absurd (hcv.symm.trans hnone) (by simp)
        next colIdx0 hsome =>
          have hcol0 : colIdx0 = cv :=
            Option.some.inj (hsome.symm.trans hcv)
          subst hcol0
          by_cases hcneg : colIdx0 = -1
          case pos => rw [if_pos hcneg]; exact ⟨_, rfl, fun m hm => by cases hm⟩
          rw [if_neg hcneg]
          have hcr : 0 ≤ colIdx0 ∧ colIdx0 ≤ 7 := hcvr.resolve_left hcneg
          have hp2lt : p + 1 + 1 < len := by omega
          split
          next hnone =>
            exact absurd (List.getElem?_eq_none_iff.mp hnone) (by omega)
          next c3 hget3 =>
            by_cases hrneg : rowIndexRaw true (decide (10 ≤ bandIndex true c)) c3 = -1
            case pos => rw [if_pos hrneg]; exact ⟨_, rfl, fun m hm => by cases hm⟩
            rw [if_neg hrneg]
            have hrr : 0 ≤ rowIndexRaw true (decide (10 ≤ bandIndex true c)) c3 ∧
                rowIndexRaw true (decide (10 ≤ bandIndex true c)) c3 ≤ 19 :=
              (rowIndexRaw_utm_range _ c3).resolve_left hrneg
            have hbb : 0 ≤ bandIndex true c ∧ bandIndex true c ≤ 19 :=
              (bandIndex_utm_range c).resolve_left hband
            set r1 := (if rustMod (zone - 1) 2 = 1 then
                  rustMod (rowIndexRaw true (decide (10 ≤ bandIndex true c)) c3 +
                    UTM_ROW_PERIOD - UTM_EVEN_ROW_SHIFT) UTM_ROW_PERIOD
                else rowIndexRaw true (decide (10 ≤ bandIndex true c)) c3) with hr1d
            have hrow1 : 0 ≤ r1 ∧ r1 < 20 := by
              rw [hr1d]
              simp only [UTM_ROW_PERIOD, UTM_EVEN_ROW_SHIFT]
              split_ifs
              · exact rustMod_nonneg_bounds (by omega) (by norm_num)
              · exact ⟨hrr.1, by omega⟩
            set r2 := utmRow (bandIndex true c - 10) colIdx0 r1 with hr2d
            have hrow2 : -130 ≤ r2 ∧ r2 ≤ 130 :=
              utmRow_bounds (bandIndex true c - 10) colIdx0 r1
                (by omega) (by omega) hrow1.1 hrow1.2
            by_cases hbad : r2 = MAXUTM_S_ROW
            case pos => rw [if_pos hbad]; exact ⟨_, rfl, fun m hm => by cases hm⟩
            rw [if_neg hbad]
            have hx : -250 ≤ colIdx0 + MINUTMCOL ∧ colIdx0 + MINUTMCOL ≤ 250 := by
              simp only [MINUTMCOL]; omega
            have hy : -250 ≤ (if (decide (10 ≤ bandIndex true c) : Bool) = true then r2
                  else r2 + 100) ∧
                (if (decide (10 ≤ bandIndex true c) : Bool) = true then r2
                  else r2 + 100) ≤ 250 := by
              constructor <;> split_ifs <;> omega
            obtain ⟨r, hrfd, hprop⟩ :=
              finishDigits_spec value len (p + 1 + 1 + 1) zone
                (decide (10 ≤ bandIndex true c)) _ _ hlend (by omega) hx hy
            refine ⟨r, hrfd, ?_⟩
            intro m hm
            obtain ⟨_, _, _, h11, hpay⟩ := hprop m hm
            refine ⟨h11, ?_⟩
            intro _ h6
            obtain ⟨k, ds, hk, hds, hdsl, hdig, he, hn2⟩ := hpay h6
            exact ⟨k, _, _, ds, p + 1 + 1 + 1, hk, hx.1, hx.2, hy.1, hy.2,
              hds, hdsl, hdig, he, hn2⟩

theorem taufIter_succ (taup es e2m : ℝ) (n : ℕ) (tau : ℝ) :
    taufIter taup es e2m (n + 1) tau =
      taufIter taup es e2m n (tau + taufStep taup es e2m tau) := rfl

theorem taufLoop_succ (taup es e2m stol : ℝ) (n : ℕ) (tau : ℝ) :
    taufLoop taup es e2m stol (n + 1) tau =
      if |taufStep taup es e2m tau| < stol then tau + taufStep taup es e2m tau
      else taufLoop taup es e2m stol n (tau + taufStep taup es e2m tau) := rfl

theorem taufLoop_char (taup es e2m stol : ℝ) :
    ∀ (n : ℕ) (tau : ℝ), 1 ≤ n →
      ∃ k, 1 ≤ k ∧ k ≤ n ∧
        taufLoop taup es e2m stol n tau = taufIter taup es e2m k tau ∧
        (∀ i, i + 1 < k →
          stol ≤ |taufStep taup es e2m (taufIter taup es e2m i tau)|) ∧
        (k = n ∨ |taufStep taup es e2m (taufIter taup es e2m (k - 1) tau)| < stol) := by
  intro n
  induction n with
  | zero => intro tau h; exact absurd h (by omega)
  | succ n ih =>
    intro tau _
    by_cases hs : |taufStep taup es e2m tau| < stol
    · refine ⟨1, le_refl 1, by omega, ?_, fun i hi => absurd hi (by omega), Or.inr ?_⟩
      · rw [taufLoop_succ, if_pos hs]
        rfl
      · simpa [taufIter] using hs
    · rcases Nat.eq_zero_or_pos n with rfl | hn
      · refine ⟨1, le_refl 1, le_refl 1, ?_, fun i hi => absurd hi (by omega),
          Or.inl rfl⟩
        rw [taufLoop_succ, if_neg hs]
        rfl
      · obtain ⟨k, hk1, hkn, hval, hmin, hlast⟩ :=
          ih (tau + taufStep taup es e2m tau) hn
        refine ⟨k + 1, by omega, by omega, ?_, ?_, ?_⟩
        · rw [taufLoop_succ, if_neg hs, hval, taufIter_succ]
        · intro i hi
          cases i with
          | zero => simpa [taufIter] using not_lt.mp hs
          | succ j =>
            rw [taufIter_succ]
            exact hmin j (by omega)
        · rcases hlast with h | h
          · exact Or.inl (by omega)
          · right
            have H2 : taufIter taup es e2m k tau =
                taufIter taup es e2m (k - 1) (tau + taufStep taup es e2m tau) := by
              nth_rewrite 1 [show k = (k - 1) + 1 from by omega]
              exact taufIter_succ taup es e2m (k - 1) tau
            rw [show k + 1 - 1 = k from by omega, H2]
            exact h

/-! ## Evaluation of the formatter at the parsed grid-zone-only point 18T -/

theorem fmtLat_18T :
    fmtLat ⟨⟨18, true, 500000, 4900000⟩, -1⟩ = ((44284/1000 : ℚ) : ℝ) := by
  simp only [fmtLat, TILE, UTM_N_SHIFT]
  norm_num
  intro h
  exact absurd (by decide) h

theorem hband_18T : ¬(|((44284/1000 : ℚ) : ℝ)| < angEpsDisplayR) := by
  rw [angEpsDisplayR]
  push_cast
  rw [abs_of_nonneg (by norm_num)]
  norm_num

theorem htlb_18T : toLatitudeBandR ((44284/1000 : ℚ) : ℝ) = 5 := by
  simp only [toLatitudeBandR]
  rw [Rat.floor_cast, ← qfloor_eq_floor]
  decide

theorem fmtCore_18T :
    fmtCore ⟨⟨18, true, 500000, 4900000⟩, -1⟩ ((44284/1000 : ℚ) : ℝ) =
      some ("18TWQ".data) := by
  have hcc : checkCoordsM true true 500000 4900000 =
      .ok (true, 500000, 4900000) := by decide
  have hdec : (decide ((18:ℤ) ≠ 0)) = true := by decide
  simp only [fmtCore, hdec, hcc]
  rw [if_neg hband_18T, htlb_18T]
  decide

/-! ## Claim theorems -/

/-- C10: `Mgrs` and `UtmUps` interconvert losslessly and infallibly:
`to_utmups`/`from_mgrs` return the stored projected tuple unchanged, and
`from_utmups`/`to_mgrs` wrap any `UtmUps` with any precision without
validation, round-tripping field-for-field exactly. -/
theorem c10_mgrs_utmups_lossless :
    ∀ (m : Mgrs) (u : UtmUps) (p : ℤ),
      m.toUtmUps = m.utm ∧ UtmUps.fromMgrs m = m.utm ∧
      (Mgrs.fromUtmUps u p).toUtmUps = u ∧ (Mgrs.fromUtmUps u p).precision = p ∧
      (u.toMgrs p).toUtmUps = u ∧ (u.toMgrs p).precision = p :=
  fun _ _ _ => ⟨rfl, rfl, rfl, rfl, rfl, rfl⟩

/-- C2 (code bug): `Mgrs::create` never checks its precision argument, so at
precision 12 (with an otherwise-valid zone 18 north point) it succeeds with
the out-of-range precision stored, although its documentation promises
`Error::InvalidPrecision` outside `[1,11]`; `Mgrs::set_precision` does
perform the documented check and rejects 12. -/
theorem c2_create_accepts_precision_12 :
    Mgrs.create 18 true 585664 4511315 12 =
      .ok ⟨⟨18, true, 585664, 4511315⟩, 12⟩ ∧
    Mgrs.setPrecision ⟨⟨18, true, 585664, 4511315⟩, 6⟩ 12 =
      .error (.invalidPrecision 12) := by
  constructor <;> decide

/-- C7 counterexample: `ang_normalize` applied to `-180` returns `-180`,
which does not lie in the half-open interval `(-180, 180]` claimed by the
spec. -/
theorem c7_counterexample :
    GeoMath.angNormalize (-180) = -180 ∧
    ¬(-180 < GeoMath.angNormalize (-180)) := by
  constructor <;> decide

/-- C7 (amended): `ang_normalize` maps every input into the closed interval
`[-180, 180]`, and when the result has magnitude exactly 180 its sign matches
the input's sign (`+180` only for nonnegative inputs, `-180` only for
negative inputs). -/
theorem c7_angnormalize_range :
    ∀ x : ℚ,
      (-180 ≤ GeoMath.angNormalize x ∧ GeoMath.angNormalize x ≤ 180) ∧
      (GeoMath.angNormalize x = 180 → 0 ≤ x) ∧
      (GeoMath.angNormalize x = -180 → x < 0) := by
  intro x
  refine ⟨angNormalize_range x, ?_, ?_⟩
  · unfold GeoMath.angNormalize
    split_ifs with h1 h2
    · intro h; norm_num at h
    · intro _; exact not_lt.mp h2
    · intro h; exfalso; rw [h] at h1
      exact h1 (by norm_num [GeoMath.epsEq, f64Eps])
  · unfold GeoMath.angNormalize
    split_ifs with h1 h2
    · intro _; exact h2
    · intro h; norm_num at h
    · intro h; exfalso; rw [h] at h1
      exact h1 (by norm_num [GeoMath.epsEq, f64Eps])

/-- C7 witness: the amended theorem applied at the concrete input 540
(which reduces to the -180 boundary and is returned as +180). -/
theorem c7_witness :
    -180 ≤ GeoMath.angNormalize 540 ∧ GeoMath.angNormalize 540 ≤ 180 :=
  (c7_angnormalize_range 540).1

/-- C3: for latitudes in `[-90, 90]`, `standard_zone` with the STANDARD
selector agrees exactly with the spec's rule: UPS sentinel 0 iff `lat < -80`
or `lat ≥ 84`, else `floor((lonInt+186)/6)` with the Norway exception
(band 7, base zone 31, `lonInt ≥ 3` ↦ 32) and the Svalbard exception
(band 9, `lonInt ∈ [0,42)` ↦ `2*floor((lonInt+183)/12)+1`); in particular
`(61°N, 7°E)` resolves to zone 32 and `(78°N, 10°E)` resolves to zone 33 by
the odd-zone remap. -/
theorem c3_standard_zone_spec :
    (∀ lat lon : ℚ, -90 ≤ lat → lat ≤ 90 →
      standardZone lat lon zonespecSTANDARD = specStandardZone lat lon) ∧
    standardZone 61 7 zonespecSTANDARD = 32 ∧
    standardZone 78 10 zonespecSTANDARD = 2 * Int.fdiv (10 + 183) 12 + 1 := by
  refine ⟨?_, by decide, by decide⟩
  intro lat lon _ _
  unfold standardZone specStandardZone zonespecSTANDARD zonespecMINZONE zonespecUPS
  have h0 : ¬((0 : ℤ) ≤ -1 ∨ (-1 : ℤ) = -4) := by decide
  rw [if_neg h0]
  have hli := lonIntOf_range lon
  have d1 : rustDiv (lonIntOf lon + 186) 6 = Int.fdiv (lonIntOf lon + 186) 6 :=
    (Int.fdiv_eq_tdiv (by omega) (by norm_num)).symm
  have d2 : rustDiv (lonIntOf lon + 183) 12 = Int.fdiv (lonIntOf lon + 183) 12 :=
    (Int.fdiv_eq_tdiv (by omega) (by norm_num)).symm
  by_cases hc : -80 ≤ lat ∧ lat < 84
  · conv_lhs => rw [if_pos (Or.inr hc)]
    conv_rhs => rw [if_neg (show ¬(lat < -80 ∨ 84 ≤ lat) by push_neg; exact hc)]
    rw [d1, d2]
  · conv_lhs => rw [if_neg (show ¬((-1 : ℤ) = -2 ∨ (-80 ≤ lat ∧ lat < 84)) by
      simpa using hc)]
    conv_rhs => rw [if_pos (show lat < -80 ∨ 84 ≤ lat by
      rcases not_and_or.mp hc with h | h
      · exact Or.inl (not_le.mp h)
      · exact Or.inr (not_lt.mp h))]

/-- C5: the utm.rs coordinate validity check accepts an easting/northing pair
exactly when each coordinate lies within the tabulated `[min,max]` window for
the zone kind and hemisphere extended by one tile (100 km) of slop on each
side, and any violation fails with a range error naming the offending axis
(easting checked first) and carrying the legal window in kilometers. -/
theorem c5_check_coords_window :
    ∀ (utmp northp lims : Bool) (x y : ℚ),
      (checkCoordsU utmp northp x y lims = .ok () ↔
        (windowLoE utmp northp ≤ x ∧ x ≤ windowHiE utmp northp ∧
         windowLoN utmp northp ≤ y ∧ y ≤ windowHiN utmp northp)) ∧
      ((x < windowLoE utmp northp ∨ windowHiE utmp northp < x) →
        checkCoordsU utmp northp x y lims =
          .error (.invalidUtmCoords lims utmp northp .easting (x / 1000)
            (windowLoE utmp northp / 1000) (windowHiE utmp northp / 1000))) ∧
      ((windowLoE utmp northp ≤ x ∧ x ≤ windowHiE utmp northp) →
        (y < windowLoN utmp northp ∨ windowHiN utmp northp < y) →
        checkCoordsU utmp northp x y lims =
          .error (.invalidUtmCoords lims utmp northp .northing (y / 1000)
            (windowLoN utmp northp / 1000) (windowHiN utmp northp / 1000))) := by
  intro utmp northp lims x y
  simp only [checkCoordsU, windowLoE, windowHiE, windowLoN, windowHiN]
  set ind := (if utmp then (2 : ℕ) else 0) + (if northp then 1 else 0) with hind
  split_ifs with h1 h2
  · refine ⟨⟨fun h => by simp at h, fun h => ?_⟩, fun _ => rfl, fun hx _ => ?_⟩
    · exfalso; rcases h1 with h1 | h1
      · linarith [h.1]
      · linarith [h.2.1]
    · exfalso; rcases h1 with h1 | h1
      · linarith [hx.1]
      · linarith [hx.2]
  · push_neg at h1
    refine ⟨⟨fun h => by simp at h, fun h => ?_⟩, fun hx => ?_, fun _ _ => rfl⟩
    · exfalso; rcases h2 with h2 | h2
      · linarith [h.2.2.1]
      · linarith [h.2.2.2]
    · exfalso; rcases hx with hx | hx
      · linarith [h1.1]
      · linarith [h1.2]
  · push_neg at h1 h2
    refine ⟨⟨fun _ => ⟨h1.1, h1.2, h2.1, h2.2⟩, fun _ => rfl⟩, fun hx => ?_,
      fun _ hy => ?_⟩
    · exfalso; rcases hx with hx | hx
      · linarith [h1.1]
      · linarith [h1.2]
    · exfalso; rcases hy with hy | hy
      · linarith [h2.1]
      · linarith [h2.2]

/-- C5 witness: an easting one tile below the legal UTM-north window is
rejected with the easting axis named and the window `[0km, 1000km]`. -/
theorem c5_witness :
    checkCoordsU true true (-100000) 5000000 false =
      .error (.invalidUtmCoords false true true .easting (-100) 0 1000) := by
  have h := (c5_check_coords_window true true false (-100000) 5000000).2.1
    (by norm_num [windowLoE, windowHiE, minEastingM, maxEastingM, MINUTMCOL,
      MAXUTMCOL, TILE])
  rw [h]
  norm_num [windowLoE, windowHiE, minEastingM, maxEastingM, MINUTMCOL,
    MAXUTMCOL, TILE]

/-- C3 witness: the zone-selector/spec agreement applied at the concrete
Norway-band point (61°N, 7°E). -/
theorem c3_witness : standardZone 61 7 zonespecSTANDARD = specStandardZone 61 7 :=
  c3_standard_zone_spec.1 61 7 (by norm_num) (by norm_num)

/-- C6: `tauf` computes the inverse conformal-latitude map by Newton
iteration.  The seed is `taup/(1-es^2)` when `|taup| <= 70` and
`taup * exp(eatanhe(1,es))` when `|taup| > 70`; the loop makes at most 5
Newton iterations, each adding the step `dtau` to the iterate, and stops
early the first time `|dtau| < tol * max(|taup|, 1)` with
`tol = sqrt(machine epsilon)/10` (the final small step is still added,
matching the `break` after `tau += dtau`). -/
theorem c6_tauf_newton (taup es : ℝ) :
    (|taup| ≤ 70 → taufSeed taup es = taup / (1 - es ^ 2)) ∧
    (70 < |taup| → taufSeed taup es = taup * Real.exp (eatanheR 1 es)) ∧
    (∃ k, 1 ≤ k ∧ k ≤ 5 ∧
      taufR taup es = taufIter taup es (1 - es ^ 2) k (taufSeed taup es) ∧
      (∀ i, i + 1 < k →
        Real.sqrt f64EpsR / 10 * max |taup| 1 ≤
          |taufStep taup es (1 - es ^ 2)
            (taufIter taup es (1 - es ^ 2) i (taufSeed taup es))|) ∧
      (k = 5 ∨
        |taufStep taup es (1 - es ^ 2)
            (taufIter taup es (1 - es ^ 2) (k - 1) (taufSeed taup es))| <
          Real.sqrt f64EpsR / 10 * max |taup| 1)) := by
  refine ⟨fun h => ?_, fun h => ?_, ?_⟩
  · rw [taufSeed, if_neg (not_lt.mpr h)]
  · rw [taufSeed, if_pos h]
  · exact taufLoop_char taup es (1 - es ^ 2)
      (Real.sqrt f64EpsR / 10 * max |taup| 1) 5 (taufSeed taup es) (by norm_num)

/-- C1 (code bug): the parse/format round trip fails on grid-zone-only
strings.  The accepted input `"18T"` parses to the central tile of grid zone
18T with sentinel precision `-1`, but the formatter has no grid-zone-only
path: it always emits the zone digits and all three letters, producing
`"18TWQ"`, not `"18T"`. -/
theorem c1_roundtrip_counterexample :
    Mgrs.fromStr "18T" = some (.ok ⟨⟨18, true, 500000, 4900000⟩, -1⟩) ∧
    Mgrs.fmt ⟨⟨18, true, 500000, 4900000⟩, -1⟩ = some ("18TWQ".data) ∧
    "18TWQ".data ≠ "18T".data := by
  refine ⟨by decide, ?_, by decide⟩
  simp only [Mgrs.fmt, fmtLat_18T]
  exact fmtCore_18T

/-- C4: the MGRS parser is total: on every input string it returns a result
(`some`), i.e. a coordinate or a structured parse error -- it never hits a
panic (out-of-bounds index, `unreachable!` arm), which the embedding models
as `none`.  (Integer overflow in the digit accumulators is modelled with
release-mode wrap-around semantics; in a debug build those overflows would
abort.) -/
theorem c4_parser_total (s : String) : ∃ r, Mgrs.fromStr s = some r := by
  obtain ⟨r, hr, _⟩ := fromStrCore_spec s.data
  exact ⟨r, hr⟩

/-- C8 (amended): every accepted MGRS string has precision at most 11, and
whenever the stored precision `k` is between 0 and 6 -- small enough that the
parser's `i32` accumulators provably do not overflow -- the trailing block of
the (uppercased) input is exactly `2k` digit characters, the first `k` giving
the easting digits and the last `k` the northing digits, and the returned
easting/northing are exactly the center of the selected precision tile:
`TILE * (2*(idx*10^k + digits) + 1) / (2*10^k)` in exact rational arithmetic,
where `idx` is the integer tile index decoded from the letters.  (For
`7 ≤ k ≤ 11` the claimed center formula fails: see the counterexample.) -/
theorem c8_digit_block_center (s : String) (m : Mgrs)
    (hacc : Mgrs.fromStr s = some (.ok m)) :
    m.precision ≤ 11 ∧
    (0 ≤ m.precision → m.precision ≤ 6 →
      ∃ (k : ℕ) (x0 y0 : ℤ) (ds : List Char) (q : ℕ),
        (k : ℤ) = m.precision ∧
        -250 ≤ x0 ∧ x0 ≤ 250 ∧ -250 ≤ y0 ∧ y0 ≤ 250 ∧
        ds = (s.data.map asciiUpper).drop q ∧
        ds.length = 2 * k ∧
        (∀ c ∈ ds, isDigitByte c) ∧
        m.utm.easting = (TILE : ℚ) *
          ((2 * (x0 * 10 ^ k + digitsVal (ds.take k)) + 1 : ℤ) : ℚ) /
          ((2 * 10 ^ k : ℤ) : ℚ) ∧
        m.utm.northing = (TILE : ℚ) *
          ((2 * (y0 * 10 ^ k + digitsVal (ds.drop k)) + 1 : ℤ) : ℚ) /
          ((2 * 10 ^ k : ℤ) : ℚ)) := by
  obtain ⟨r, hr, hprop⟩ := fromStrCore_spec s.data
  have hro : r = .ok m := Option.some.inj (hr.symm.trans hacc)
  exact hprop m hro

/-- C8 witness: `"18TWL8566411315"` (precision 5) parses, its precision is at
most 11, and its easting `1171329/2` is exactly the tile-center formula with
column index 5 (letter `W` in zone 18) and easting digits `85664`. -/
theorem c8_witness :
    Mgrs.fromStr "18TWL8566411315" =
        some (.ok ⟨⟨18, true, 1171329/2, 9022631/2⟩, 5⟩) ∧
    ((⟨⟨18, true, 1171329/2, 9022631/2⟩, 5⟩ : Mgrs).precision ≤ 11) ∧
    (1171329/2 : ℚ) = (TILE : ℚ) *
        ((2 * (5 * 10 ^ 5 + 85664) + 1 : ℤ) : ℚ) / ((2 * 10 ^ 5 : ℤ) : ℚ) :=
  ⟨by decide, (c8_digit_block_center "18TWL8566411315" _ (by decide)).1, by decide⟩

/-- C8 counterexample: at the maximum precision 11 the parser's `i32` digit
accumulators overflow, so the returned coordinate is NOT the claimed tile
center.  `"18TWL0000000000000000000000"` (column letter `W` = in-zone column
index 5 for zone 18, twenty-two `0` digits, so easting digits = 0) is
accepted with precision 11, but its easting is `757687465625/19411072`
(≈ 39033.7 m, and its northing is even negative), not the claimed center
`TILE * (2*(5*10^11 + 0) + 1) / (2*10^11)` = 500000.0000005 m. -/
theorem c8_counterexample :
    Mgrs.fromStr "18TWL0000000000000000000000" =
      some (.ok ⟨⟨18, true, 757687465625/19411072, -2128661334375/19411072⟩, 11⟩) ∧
    digitsVal ((("18TWL0000000000000000000000".data.map asciiUpper).drop 5).take 11)
      = 0 ∧
    ¬((757687465625/19411072 : ℚ) =
      (TILE : ℚ) * ((2 * (5 * 10 ^ 11 + 0) + 1 : ℤ) : ℚ) /
        ((2 * 10 ^ 11 : ℤ) : ℚ)) := by
  refine ⟨by decide, by decide, by decide⟩
